import Mathlib

/-!
Verification of the MOSAIC path-to-tile placement engine (`tessera1_2.py`,
`tessera1_1.py`) against its natural-language specification.

The development has two layers:

* a computable discrete session model (rational coordinates) embedding the
  serial-number assignment of `ScalableRectangle.__init__` and
  `ScalableTriangle.__init__`, the undo ledger (`add_to_undo_stack`,
  `undo_last_action`), `clear_all`, and the CSV import loop
  (`import_array_from_csv`);

* a real-valued geometric model embedding `smooth_path`,
  `resample_path_by_distance`, `calculate_smooth_angle`,
  `create_rectangles_along_specific_path`, `create_parallel_paths`, the
  path-gesture branch of `mouseReleaseEvent`, and (from `tessera1_1.py`)
  `find_non_overlapping_position`.
-/

namespace Tessera

/-! ## Discrete session model (serial numbers, undo ledger, CSV import)

Coordinates in this layer are rationals so that every definition is
computable; none of the claims settled on this layer depend on the
irrational geometry (distances, angles), only on counters, lists and
control flow. -/

/-- Shape kind of a tile: `ScalableRectangle` or `ScalableTriangle`. -/
inductive ShapeKind
  | rectangle
  | triangle
deriving DecidableEq, Repr

/-- A placed tile.  Mirrors the fields of `ScalableRectangle` /
`ScalableTriangle` that the engine reads back: geometry, rotation, the
serial number assigned at creation, frame color, fill state.  For a
triangle `width = height = size` (its two legs). -/
structure Tile where
  kind : ShapeKind
  serial : Int
  x : Rat
  y : Rat
  width : Rat
  height : Rat
  rotDegrees : Rat
  frameColor : String
  fillColor : String
  isFilled : Bool
deriving DecidableEq, Repr

/-- The `type` strings used with `add_to_undo_stack`. -/
inductive ActionType
  | addRectangles
  | addTriangles
  | clearAllAction
  | eraseRectangles
  | deleteRed
  | deleteGreen
deriving DecidableEq, Repr

/-- One batch on the undo stack: an action type plus the list of tiles it
created or destroyed (`{'type': ..., 'rectangles': ...}`). -/
structure UndoEntry where
  type : ActionType
  rectangles : List Tile
deriving DecidableEq, Repr

/-- Process-wide state: the scene's live tiles (insertion order), the two
class-level serial counters `ScalableRectangle._next_serial_number` and
`ScalableTriangle._next_serial_number`, and `MainWindow.undo_stack`. -/
structure AppState where
  scene : List Tile
  rectNextSerial : Int
  triNextSerial : Int
  undoStack : List UndoEntry
deriving DecidableEq, Repr

/-- Initial state of a session: empty scene, both class counters start at
`1` (lines 15 and 235 of `tessera1_2.py`), empty undo stack. -/
def initialState : AppState :=
  ⟨[], 1, 1, []⟩

/-- `add_to_undo_stack`: keep only the last 10 actions (drop the oldest,
`pop(0)`) and append the new batch. -/
def addToUndoStack (stack : List UndoEntry) (e : UndoEntry) : List UndoEntry :=
  (if stack.length ≥ 10 then stack.drop 1 else stack) ++ [e]

/-- `Workspace.add_rectangle` together with `ScalableRectangle.__init__`:
build the tile, assign the rectangle-class serial counter and bump it, add
the tile to the scene, and (outside batch mode, which is the case for every
discrete operation modelled here) push an `'add_rectangles'` batch holding
just that tile.  Returns the created tile and the new state. -/
def addRectangle (s : AppState) (x y w h : Rat) (color : String) : Tile × AppState :=
  let t : Tile := ⟨.rectangle, s.rectNextSerial, x, y, w, h, 0, color, "", false⟩
  (t, ⟨s.scene ++ [t], s.rectNextSerial + 1, s.triNextSerial,
       addToUndoStack s.undoStack ⟨.addRectangles, [t]⟩⟩)

/-- `Workspace.add_triangle` together with `ScalableTriangle.__init__`:
same as `addRectangle` but with the triangle-class counter and an
`'add_triangles'` batch. -/
def addTriangle (s : AppState) (x y size : Rat) (color : String) : Tile × AppState :=
  let t : Tile := ⟨.triangle, s.triNextSerial, x, y, size, size, 0, color, "", false⟩
  (t, ⟨s.scene ++ [t], s.rectNextSerial, s.triNextSerial + 1,
       addToUndoStack s.undoStack ⟨.addTriangles, [t]⟩⟩)

/-! ### CSV import

`import_array_from_csv` reads rows of ten text cells.  A cell is modelled
by the parse behaviour of its text under Python's `int` / `float` /
truthiness: `intLit n` stands for the text of an integer literal,
`floatLit q` for the text of a non-integer numeric literal, `text s` for
non-numeric non-empty text, `empty` for the empty string. -/

/-- A CSV cell, classified by how Python parses its text. -/
inductive Cell
  | intLit (n : Int)
  | floatLit (q : Rat)
  | text (s : String)
  | empty
deriving DecidableEq, Repr

/-- Python `int(cell)`: succeeds exactly on integer literals. -/
def Cell.pyInt : Cell → Option Int
  | .intLit n => some n
  | _ => none

/-- Python `float(cell)`: succeeds on any numeric literal. -/
def Cell.pyFloat : Cell → Option Rat
  | .intLit n => some (n : Rat)
  | .floatLit q => some q
  | _ => none

/-- Python truthiness of the cell's text: only the empty string is falsy. -/
def Cell.truthy : Cell → Bool
  | .empty => false
  | _ => true

/-- The cell's text, used where the code keeps the raw string (colors,
shape type). -/
def Cell.asText : Cell → String
  | .intLit n => toString n
  | .floatLit q => toString q
  | .text s => s
  | .empty => ""

/-- Row\[9\] handling: `row[9].lower() in ('true','1','yes') if row[9] else False`. -/
def Cell.fillFlag : Cell → Bool
  | .empty => false
  | c => decide (c.asText.toLower = "true") || decide (c.asText.toLower = "1")
         || decide (c.asText.toLower = "yes")

/-- The values parsed out of one well-formed CSV row, before the tile is
built (lines 2214–2223 of `tessera1_2.py`). -/
structure ParsedRow where
  serial : Int
  isTriangle : Bool
  x : Rat
  y : Rat
  width : Rat
  height : Rat
  rotDegrees : Rat
  frameColor : String
  fillColor : String
  isFilled : Bool
deriving DecidableEq, Repr

/-- The parsing phase of the per-row `try` block: a row with fewer than 10
cells is rejected, then the numeric fields are parsed in order; the first
`ValueError` (modelled as `none`) rejects the whole row.  All scene and
counter mutation in the loop body happens after this phase, so a rejected
row has no effect on the state. -/
def parseRow (row : List Cell) : Option ParsedRow :=
  if row.length < 10 then none
  else
    let c0 := row.getD 0 .empty
    let c1 := row.getD 1 .empty
    let c6 := row.getD 6 .empty
    let c7 := row.getD 7 .empty
    let c8 := row.getD 8 .empty
    let c9 := row.getD 9 .empty
    (fun serial x y w h rot =>
        ⟨serial, decide (c1 = .text "Triangle"), x, y, w, h, rot,
         if c7.truthy then c7.asText else "#8B4513",
         if c8.truthy then c8.asText else "",
         c9.fillFlag⟩) <$>
      (if c0.truthy then c0.pyInt else some 0) <*>
      (row.getD 2 .empty).pyFloat <*>
      (row.getD 3 .empty).pyFloat <*>
      (row.getD 4 .empty).pyFloat <*>
      (row.getD 5 .empty).pyFloat <*>
      (if c6.truthy then c6.pyFloat else some 0)

/-- The tile a valid CSV row reconstructs: a triangle when the type cell
is `"Triangle"` (its `size` taken from the width field), a rectangle
otherwise; the CSV serial number replaces the auto-assigned one; rotation
and fill are applied as in lines 2250–2261 (`if rotation != 0` leaves the
initial 0 when the parsed rotation is 0, so the stored rotation is the
parsed value either way; fill needs both the flag and a non-empty fill
color). -/
def mkImportTile (pr : ParsedRow) : Tile :=
  let filled := pr.isFilled && pr.fillColor ≠ ""
  if pr.isTriangle then
    ⟨.triangle, pr.serial, pr.x, pr.y, pr.width, pr.width, pr.rotDegrees,
     pr.frameColor, if filled then pr.fillColor else "", filled⟩
  else
    ⟨.rectangle, pr.serial, pr.x, pr.y, pr.width, pr.height, pr.rotDegrees,
     pr.frameColor, if filled then pr.fillColor else "", filled⟩

/-- Commit one successfully parsed row (lines 2225–2263): create the shape
through `add_triangle` / `add_rectangle` (which auto-assigns a serial,
bumps the class counter and pushes a one-tile batch), then override the
shape's serial number with the one from the CSV, advance the class counter
past it when needed (`if serial_number >= cls._next_serial_number`), and
apply rotation and fill.  Because the scene and the undo batch hold the
same object that is mutated, the committed tile value carries the final
(overridden) attributes. -/
def commitRow (s : AppState) (pr : ParsedRow) : Tile × AppState :=
  let t := mkImportTile pr
  if pr.isTriangle then
    (t, ⟨s.scene ++ [t], s.rectNextSerial,
         if pr.serial ≥ s.triNextSerial + 1 then pr.serial + 1 else s.triNextSerial + 1,
         addToUndoStack s.undoStack ⟨.addTriangles, [t]⟩⟩)
  else
    (t, ⟨s.scene ++ [t],
         if pr.serial ≥ s.rectNextSerial + 1 then pr.serial + 1 else s.rectNextSerial + 1,
         s.triNextSerial,
         addToUndoStack s.undoStack ⟨.addRectangles, [t]⟩⟩)

/-- The row loop of `import_array_from_csv`: each malformed row is skipped
and the loop continues; each valid row is committed and counted
(`rectangles_created += 1`).  Returns the final state and the created
tiles in order; the reported success count is the length of that list. -/
def importRows (s : AppState) : List (List Cell) → AppState × List Tile
  | [] => (s, [])
  | row :: rows =>
    match parseRow row with
    | none => importRows s rows
    | some pr =>
      let p := commitRow s pr
      let r := importRows p.2 rows
      (r.1, p.1 :: r.2)

/-- `clear_all`: collect the live tiles, push a `'clear_all'` batch only
when there is at least one, then remove every tile from the scene. -/
def clearAll (s : AppState) : AppState :=
  ⟨[], s.rectNextSerial, s.triNextSerial,
   if s.scene.isEmpty then s.undoStack
   else addToUndoStack s.undoStack ⟨.clearAllAction, s.scene⟩⟩

/-- `undo_last_action`: with an empty stack do nothing ("Nothing to
undo"); otherwise pop the most recent batch.  An `'add_rectangles'` batch
removes each of its tiles that is still in the scene (absent ones are
skipped by the `if rect.scene()` guard) — iterated first-occurrence
removal, i.e. `List.diff`.  The four destroy-set batch types re-add their
recorded tiles.  An `'add_triangles'` batch matches none of the branches
of the code and only gets popped. -/
def undoLastAction (s : AppState) : AppState :=
  match s.undoStack.getLast? with
  | none => s
  | some e =>
    let stack := s.undoStack.dropLast
    match e.type with
    | .addRectangles => ⟨s.scene.diff e.rectangles, s.rectNextSerial, s.triNextSerial, stack⟩
    | .addTriangles => ⟨s.scene, s.rectNextSerial, s.triNextSerial, stack⟩
    | _ => ⟨s.scene ++ e.rectangles, s.rectNextSerial, s.triNextSerial, stack⟩

/-! ### Session runs and the creation log -/

/-- Origin of a created tile: auto-assigned serial (single add or path
placement) versus serial copied from a CSV row. -/
inductive Origin
  | auto
  | imported
deriving DecidableEq, Repr

/-- One creation event of a session: the tile as created (with its final
serial number) and how its serial was obtained. -/
structure Created where
  tile : Tile
  origin : Origin
deriving DecidableEq, Repr

/-- User-level operations of a session that the discrete model covers. -/
inductive Op
  | addRect (x y w h : Rat) (color : String)
  | addTri (x y size : Rat) (color : String)
  | importCSV (rows : List (List Cell))
  | clearAllOp
  | undoOp
deriving Repr

/-- Step a session state and its creation log by one operation. -/
def stepOp (acc : AppState × List Created) : Op → AppState × List Created
  | .addRect x y w h c =>
    let (t, s1) := addRectangle acc.1 x y w h c
    (s1, acc.2 ++ [⟨t, .auto⟩])
  | .addTri x y size c =>
    let (t, s1) := addTriangle acc.1 x y size c
    (s1, acc.2 ++ [⟨t, .auto⟩])
  | .importCSV rows =>
    let (s1, ts) := importRows acc.1 rows
    (s1, acc.2 ++ ts.map (⟨·, .imported⟩))
  | .clearAllOp => (clearAll acc.1, acc.2)
  | .undoOp => (undoLastAction acc.1, acc.2)

/-- Run a whole session from the initial state, collecting every tile ever
created, in creation order. -/
def runOps (ops : List Op) : AppState × List Created :=
  ops.foldl stepOp (initialState, [])

/-- Invariant used for the serial-number claims: a logged creation's
serial number is below the current counter of its shape kind. -/
def serialBound (s : AppState) (c : Created) : Prop :=
  (c.tile.kind = ShapeKind.rectangle → c.tile.serial < s.rectNextSerial) ∧
  (c.tile.kind = ShapeKind.triangle → c.tile.serial < s.triNextSerial)

/-- Freshness order on creation events: a later auto-assigned creation of
the same shape kind has a strictly larger serial number. -/
def freshRel (a b : Created) : Prop :=
  a.tile.kind = b.tile.kind → b.origin = Origin.auto → a.tile.serial < b.tile.serial

/-- A well-formed CSV row describing a triangle with serial number 9. -/
def sampleTriRow9 : List Cell :=
  [.intLit 9, .text "Triangle", .intLit 0, .intLit 0, .intLit 10, .intLit 10,
   .intLit 0, .empty, .empty, .empty]

/-- A well-formed CSV row describing a rectangle with serial number 5. -/
def sampleRectRow5 : List Cell :=
  [.intLit 5, .text "Rectangle", .intLit 0, .intLit 0, .intLit 10, .intLit 10,
   .intLit 0, .empty, .empty, .empty]

/-! ## Geometric model (paths, resampling, angles, placement)

This layer embeds the numeric path processing of `tessera1_2.py` over the
real numbers (the Python code computes with floating point; the embedding
uses exact reals, with `Real.sqrt` for `** 0.5`). -/

/-- A 2D point (`QPointF`). -/
abbrev Pt := ℝ × ℝ

/-- Euclidean distance `((p2.x-p1.x)**2 + (p2.y-p1.y)**2) ** 0.5`. -/
noncomputable def segLen (p q : Pt) : ℝ :=
  Real.sqrt ((q.1 - p.1) ^ 2 + (q.2 - p.2) ^ 2)

/-- Linear interpolation `p1 + r * (p2 - p1)` componentwise, as used for
the point at a given fraction along a segment. -/
noncomputable def interpPt (p1 p2 : Pt) (r : ℝ) : Pt :=
  (p1.1 + r * (p2.1 - p1.1), p1.2 + r * (p2.2 - p1.2))

/-- Interior pass of `smooth_path`: replaces each interior point by the
mean of itself and its two neighbours, keeping the final point. -/
noncomputable def smoothAux : Pt → List Pt → List Pt
  | prev, curr :: next :: rest =>
    ((prev.1 + curr.1 + next.1) / 3, (prev.2 + curr.2 + next.2) / 3) :: smoothAux curr (next :: rest)
  | _, l => l
termination_by _ l => l.length

/-- `smooth_path`: no-op for fewer than 3 points; otherwise keep the first
point, average each interior point with its neighbours, keep the last. -/
noncomputable def smoothPath (path : List Pt) : List Pt :=
  if path.length < 3 then path
  else
    match path with
    | [] => []
    | p0 :: rest => p0 :: smoothAux p0 rest

/-- The `path_segments` list `(p1, p2, distance)` built by both
`resample_path_by_distance` and the placement loops. -/
noncomputable def mkSegs : List Pt → List (Pt × Pt × ℝ)
  | p1 :: p2 :: rest => (p1, p2, segLen p1 p2) :: mkSegs (p2 :: rest)
  | _ => []

/-- Total path length: the sum of the segment distances. -/
noncomputable def segsTotal (segs : List (Pt × Pt × ℝ)) : ℝ :=
  (segs.map (fun s => s.2.2)).sum

/-- The inner `while target_distance <= current_distance + segment_distance`
loop shared by `resample_path_by_distance`,
`create_rectangles_along_specific_path` and
`create_half_rectangles_along_path`: starting from target `t`, it emits
`f t` for each target within the current segment (the emission is guarded
by `segment_distance > 0`), advances the target by `spacing` each
iteration, and returns the emitted list together with the final target.
The Python loop has no guard on `spacing`; the `0 < spacing` conjunct here
only makes termination explicit (with `spacing ≤ 0` and a reachable
target the Python loop would not terminate, and every caller passes a
positive spacing). -/
noncomputable def targetLoop (spacing c L : ℝ) (f : ℝ → α) (t : ℝ) : List α × ℝ :=
  if h : 0 < spacing ∧ t ≤ c + L then
    let r := targetLoop spacing c L f (t + spacing)
    ((if 0 < L then [f t] else []) ++ r.1, r.2)
  else ([], t)
termination_by (⌊(c + L - t) / spacing⌋ + 1).toNat
decreasing_by
  have hsp : 0 < spacing := h.1
  have hx : (0:ℝ) ≤ (c + L - t) / spacing :=
    div_nonneg (by linarith [h.2]) (le_of_lt hsp)
  have hfl : (0:ℤ) ≤ ⌊(c + L - t) / spacing⌋ := Int.floor_nonneg.mpr hx
  have hne : spacing ≠ 0 := ne_of_gt hsp
  have harg : c + L - (t + spacing) = c + L - t - spacing := by ring
  have hstep : (c + L - (t + spacing)) / spacing = (c + L - t) / spacing - 1 := by
    rw [harg, sub_div, div_self hne]
  have : ⌊(c + L - (t + spacing)) / spacing⌋ = ⌊(c + L - t) / spacing⌋ - 1 := by
    rw [hstep]
    exact_mod_cast Int.floor_sub_int ((c + L - t) / spacing) 1
  omega

/-- The list of targets consumed by `targetLoop` before the loop exits:
`t, t + spacing, t + 2·spacing, …` while the target stays at most `b`. -/
noncomputable def targetsFrom (spacing b t : ℝ) : List ℝ :=
  if h : 0 < spacing ∧ t ≤ b then t :: targetsFrom spacing b (t + spacing)
  else []
termination_by (⌊(b - t) / spacing⌋ + 1).toNat
decreasing_by
  have hsp : 0 < spacing := h.1
  have hx : (0:ℝ) ≤ (b - t) / spacing :=
    div_nonneg (by linarith [h.2]) (le_of_lt hsp)
  have hfl : (0:ℤ) ≤ ⌊(b - t) / spacing⌋ := Int.floor_nonneg.mpr hx
  have hne : spacing ≠ 0 := ne_of_gt hsp
  have harg : b - (t + spacing) = b - t - spacing := by ring
  have hstep : (b - (t + spacing)) / spacing = (b - t) / spacing - 1 := by
    rw [harg, sub_div, div_self hne]
  have : ⌊(b - (t + spacing)) / spacing⌋ = ⌊(b - t) / spacing⌋ - 1 := by
    rw [hstep]
    exact_mod_cast Int.floor_sub_int ((b - t) / spacing) 1
  omega

/-- The value of the loop target after `targetLoop` exits. -/
noncomputable def nextFrom (spacing b t : ℝ) : ℝ :=
  if h : 0 < spacing ∧ t ≤ b then nextFrom spacing b (t + spacing)
  else t
termination_by (⌊(b - t) / spacing⌋ + 1).toNat
decreasing_by
  have hsp : 0 < spacing := h.1
  have hx : (0:ℝ) ≤ (b - t) / spacing :=
    div_nonneg (by linarith [h.2]) (le_of_lt hsp)
  have hfl : (0:ℤ) ≤ ⌊(b - t) / spacing⌋ := Int.floor_nonneg.mpr hx
  have hne : spacing ≠ 0 := ne_of_gt hsp
  have harg : b - (t + spacing) = b - t - spacing := by ring
  have hstep : (b - (t + spacing)) / spacing = (b - t) / spacing - 1 := by
    rw [harg, sub_div, div_self hne]
  have : ⌊(b - (t + spacing)) / spacing⌋ = ⌊(b - t) / spacing⌋ - 1 := by
    rw [hstep]
    exact_mod_cast Int.floor_sub_int ((b - t) / spacing) 1
  omega

/-- The outer `for p1, p2, segment_distance in path_segments` loop of
`resample_path_by_distance`: walk the segments carrying the cumulative
distance `c` and the pending target `t`, emitting the interpolated point
for each target that lands in a segment. -/
noncomputable def resWalk (spacing : ℝ) : List (Pt × Pt × ℝ) → ℝ → ℝ → List Pt
  | [], _, _ => []
  | (p1, p2, L) :: rest, c, t =>
    let r := targetLoop spacing c L (fun td => interpPt p1 p2 ((td - c) / L)) t
    r.1 ++ resWalk spacing rest (c + L) r.2

/-- `resample_path_by_distance(path, spacing_multiplier)`: paths of fewer
than 2 points are returned unchanged; the effective spacing is the larger
of `rectangle_size * 1.1` and `rectangle_size * spacing_multiplier`
(calls that pass no multiplier use `self.rectangle_spacing`, supplied here
as `mult`); the first point is always kept, targets start at one spacing,
and the final raw point is appended when it lies strictly farther than
half the spacing from the last emitted point. -/
noncomputable def resamplePathByDistance (size mult : ℝ) (path : List Pt) : List Pt :=
  if path.length < 2 then path
  else
    let spacing := max (size * 1.1) (size * mult)
    let resampled := path.headI :: resWalk spacing (mkSegs path) 0 spacing
    if segLen (path.getLastD (0, 0)) (resampled.getLastD (0, 0)) > spacing * 0.5 then
      resampled ++ [path.getLastD (0, 0)]
    else resampled

/-- Specification-side resampler, written from the spec's words: compute
the cumulative arc length; emit one point per `targetSpacing` units of
arc length, each obtained by linear interpolation inside the segment
straddling that arc-length target; always include the first point;
append the final raw point exactly when it is farther than half the
spacing from the last emitted point.  `pointAtArcSegs` returns the point
at arc-length distance `d` into the segment list. -/
noncomputable def pointAtArcSegs : List (Pt × Pt × ℝ) → ℝ → Pt
  | [], _ => (0, 0)
  | (p1, p2, L) :: rest, d =>
    if d ≤ L then interpPt p1 p2 (d / L) else pointAtArcSegs rest (d - L)

/-- Specification-side resampler (see `pointAtArcSegs`). -/
noncomputable def resampleSpec (spacing : ℝ) (path : List Pt) : List Pt :=
  let segs := mkSegs path
  let n := (⌊segsTotal segs / spacing⌋).toNat
  let pts := path.headI ::
    (List.range n).map (fun (i : ℕ) => pointAtArcSegs segs (((i : ℝ) + 1) * spacing))
  if segLen (path.getLastD (0, 0)) (pts.getLastD (0, 0)) > spacing * 0.5 then
    pts ++ [path.getLastD (0, 0)]
  else pts

/-! ### Tangent-angle estimation (`calculate_smooth_angle`) -/

/-- Python `math.atan2(y, x)`. -/
noncomputable def atan2 (y x : ℝ) : ℝ :=
  if 0 < x then Real.arctan (y / x)
  else if x < 0 then
    if 0 ≤ y then Real.arctan (y / x) + Real.pi else Real.arctan (y / x) - Real.pi
  else if 0 < y then Real.pi / 2
  else if y < 0 then -(Real.pi / 2)
  else 0

/-- Python `math.degrees`. -/
noncomputable def degrees (r : ℝ) : ℝ :=
  r * 180 / Real.pi

/-- The candidate point tested at index `i` by the backward search of
`calculate_smooth_angle`: at the current segment the current position is
used when `ratio > 0.5`, the segment start otherwise. -/
noncomputable def backTestPt (path : List Pt) (segIdx i : ℕ) (fr : ℝ) (cur : Pt) : Pt :=
  if i = segIdx then (if fr > 0.5 then cur else path.getD i (0, 0))
  else path.getD i (0, 0)

/-- Backward search of `calculate_smooth_angle`: scan indices
`segIdx, segIdx - 1, …, 0` and return the first tested point at distance
at least `thr` (`= target_distance * 0.8`) from the current position. -/
noncomputable def backSearch (path : List Pt) (segIdx : ℕ) (fr : ℝ) (cur : Pt) (thr : ℝ) :
    ℕ → Option Pt
  | 0 =>
    let tp := backTestPt path segIdx 0 fr cur
    if segLen cur tp ≥ thr then some tp else none
  | i + 1 =>
    let tp := backTestPt path segIdx (i + 1) fr cur
    if segLen cur tp ≥ thr then some tp
    else backSearch path segIdx fr cur thr i

/-- The candidate point tested at index `i` by the forward search: at the
current segment the current position is used when `ratio < 0.5`, the
segment end (or the segment start when no next point exists) otherwise. -/
noncomputable def fwdTestPt (path : List Pt) (segIdx i : ℕ) (fr : ℝ) (cur : Pt) : Pt :=
  if i = segIdx then
    if fr < 0.5 then cur
    else if i + 1 < path.length then path.getD (i + 1) (0, 0) else path.getD i (0, 0)
  else path.getD i (0, 0)

/-- Forward search of `calculate_smooth_angle`: scan indices
`i, i + 1, …` while iterations remain (`len(path) - segIdx` of them) and
return the first tested point at distance at least `thr`. -/
noncomputable def fwdSearch (path : List Pt) (segIdx : ℕ) (fr : ℝ) (cur : Pt) (thr : ℝ) :
    ℕ → ℕ → Option Pt
  | _, 0 => none
  | i, n + 1 =>
    let tp := fwdTestPt path segIdx i fr cur
    if segLen cur tp ≥ thr then some tp
    else fwdSearch path segIdx fr cur thr (i + 1) n

/-- `calculate_smooth_angle(path, segment_idx, ratio)`: position at the
given fraction of the given segment; search backward and forward for
reference points at least `0.8 × (1.5 × rectangle_size)` away; direction
from the two reference points when both exist, from the one that exists
otherwise, else the raw segment direction; result `atan2` in degrees. -/
noncomputable def calcSmoothAngle (size : ℝ) (path : List Pt) (segIdx : ℕ) (fr : ℝ) : ℝ :=
  let p1 := path.getD segIdx (0, 0)
  let p2 := path.getD (segIdx + 1) (0, 0)
  let cur := interpPt p1 p2 fr
  let thr := size * 1.5 * 0.8
  let back := backSearch path segIdx fr cur thr segIdx
  let fwd := fwdSearch path segIdx fr cur thr segIdx (path.length - segIdx)
  let dir : Pt :=
    match back, fwd with
    | some b, some f => (f.1 - b.1, f.2 - b.2)
    | none, some f => (f.1 - cur.1, f.2 - cur.2)
    | some b, none => (cur.1 - b.1, cur.2 - b.2)
    | none, none => (p2.1 - p1.1, p2.2 - p1.2)
  if dir.1 ≠ 0 ∨ dir.2 ≠ 0 then degrees (atan2 dir.2 dir.1) else 0

/-! ### Tile placement along a path -/

/-- A rectangle created by the placement pipeline, with the geometry the
placer sets: top-left position, width, height, rotation in degrees. -/
structure RTile where
  x : ℝ
  y : ℝ
  width : ℝ
  height : ℝ
  rotDegrees : ℝ

/-- Center of a placed rectangle (the sampled path point it was centered
on). -/
noncomputable def RTile.center (t : RTile) : Pt :=
  (t.x + t.width / 2, t.y + t.height / 2)

/-- The segment walk of `create_rectangles_along_specific_path`: like
`resWalk` but emitting a rectangle per target, rotated by
`calculate_smooth_angle` at the target's segment index and fraction, and
positioned so that its center is the sampled point. -/
noncomputable def placeWalk (size spacing : ℝ) (path : List Pt) :
    List (Pt × Pt × ℝ) → ℕ → ℝ → ℝ → List RTile
  | [], _, _, _ => []
  | (p1, p2, L) :: rest, idx, c, t =>
    let r := targetLoop spacing c L (fun td =>
      let fr := (td - c) / L
      let x := p1.1 + fr * (p2.1 - p1.1)
      let y := p1.2 + fr * (p2.2 - p1.2)
      RTile.mk (x - size / 2) (y - size / 2) size size
        (calcSmoothAngle size path idx fr)) t
    r.1 ++ placeWalk size spacing path rest (idx + 1) (c + L) r.2

/-- `create_rectangles_along_specific_path(path, spacing_multiplier)`:
no-op below 2 points; spacing floored at `size * 1.1`; targets start at
`0`; one full `size × size` rectangle per target, centered on the sampled
point and rotated to the smooth angle. -/
noncomputable def createRectanglesAlongSpecificPath (size mult : ℝ) (path : List Pt) :
    List RTile :=
  if path.length < 2 then []
  else
    let spacing := max (size * 1.1) (size * mult)
    placeWalk size spacing path (mkSegs path) 0 0 0

/-- The single-line drawing gesture (`mouseReleaseEvent` with
`drawing_mode` and neither parallel, edge nor half-rectangle mode):
`create_rectangles_along_path` smooths the drawn path and places
rectangles along it. -/
noncomputable def singleLineGesture (size mult : ℝ) (rawPath : List Pt) : List RTile :=
  if rawPath.length < 2 then []
  else createRectanglesAlongSpecificPath size mult (smoothPath rawPath)

/-! ### Parallel lanes (`create_parallel_paths`) -/

/-- Per-line offset distance of `create_parallel_paths`; `s2 … s5` are
the configurable `second_line_spacing` … `fifth_line_spacing`, lines
beyond the fifth use the escalating fallback. -/
noncomputable def laneDistance (size pdm s2 s3 s4 s5 : ℝ) (lineIndex : ℕ) : ℝ :=
  let base := size * pdm
  if lineIndex = 1 then base * (lineIndex : ℝ)
  else if lineIndex = 2 then base * (lineIndex : ℝ) * s2
  else if lineIndex = 3 then base * (lineIndex : ℝ) * s3
  else if lineIndex = 4 then base * (lineIndex : ℝ) * s4
  else if lineIndex = 5 then base * (lineIndex : ℝ) * s5
  else base * (6.0 + ((lineIndex : ℝ) - 5) * 1.5)

/-- Direction used at index `i` when offsetting the resampled path: the
single adjacent segment direction at either end, the mean of the two
adjacent segment directions at interior points. -/
noncomputable def laneDirAt (rp : List Pt) (i : ℕ) : Pt :=
  let p := rp.getD i (0, 0)
  if i = 0 then
    let nx := rp.getD (i + 1) (0, 0)
    (nx.1 - p.1, nx.2 - p.2)
  else if i = rp.length - 1 then
    let pv := rp.getD (i - 1) (0, 0)
    (p.1 - pv.1, p.2 - pv.2)
  else
    let pv := rp.getD (i - 1) (0, 0)
    let nx := rp.getD (i + 1) (0, 0)
    ((p.1 - pv.1 + (nx.1 - p.1)) / 2, (p.2 - pv.2 + (nx.2 - p.2)) / 2)

/-- Offset pair for point `i` of the resampled path: normalize the
direction, rotate it 90°, and move the point by `±d` along the normal; a
zero-length direction drops the point from both lanes. -/
noncomputable def lanePoint (rp : List Pt) (d : ℝ) (i : ℕ) : Option (Pt × Pt) :=
  let p := rp.getD i (0, 0)
  let dir := laneDirAt rp i
  let len := Real.sqrt (dir.1 * dir.1 + dir.2 * dir.2)
  if 0 < len then
    let ux := dir.1 / len
    let uy := dir.2 / len
    some ((p.1 + -uy * d, p.2 + ux * d), (p.1 - -uy * d, p.2 - ux * d))
  else none

/-- The left lane path at offset `d`. -/
noncomputable def leftLane (rp : List Pt) (d : ℝ) : List Pt :=
  (List.range rp.length).filterMap (fun i => (lanePoint rp d i).map Prod.fst)

/-- The right lane path at offset `d`. -/
noncomputable def rightLane (rp : List Pt) (d : ℝ) : List Pt :=
  (List.range rp.length).filterMap (fun i => (lanePoint rp d i).map Prod.snd)

/-- `create_parallel_paths`: resample the smoothed path (with the default
`rectangle_spacing` multiplier), then for each line index generate the
left and right lanes at that line's offset and place full rectangles
along each lane with `create_rectangles_along_specific_path`. -/
noncomputable def createParallelPaths (size rectSpacing pdm s2 s3 s4 s5 : ℝ)
    (count : ℕ) (smoothed : List Pt) : List RTile :=
  if smoothed.length < 2 then []
  else
    let rp := resamplePathByDistance size rectSpacing smoothed
    (List.range count).foldl
      (fun acc k =>
        let d := laneDistance size pdm s2 s3 s4 s5 (k + 1)
        let lt := leftLane rp d
        let rt := rightLane rp d
        acc ++ (if lt.isEmpty then [] else createRectanglesAlongSpecificPath size rectSpacing lt)
            ++ (if rt.isEmpty then [] else createRectanglesAlongSpecificPath size rectSpacing rt))
      []

/-- The parallel-mode path gesture (`mouseReleaseEvent` with
`parallel_mode`): `create_rectangles_along_path` smooths the path,
creates nothing on the main line, and resets `batch_operation` to false
before returning; `create_parallel_paths` then runs with batch mode OFF,
so every `add_rectangle` it performs pushes its own one-tile
`'add_rectangles'` batch; finally the handler pushes one collective batch
with all rectangles new since the press (when any exist).  Returns the
created tiles and the list of batches pushed, in push order. -/
noncomputable def parallelGesture (size rectSpacing pdm s2 s3 s4 s5 : ℝ) (count : ℕ)
    (rawPath : List Pt) : List RTile × List (List RTile) :=
  if rawPath.length < 2 then ([], [])
  else
    let tiles := createParallelPaths size rectSpacing pdm s2 s3 s4 s5 count (smoothPath rawPath)
    (tiles, tiles.map (fun t => [t]) ++ (if tiles.isEmpty then [] else [tiles]))

/-! ### Overlap classification (claim C4)

The geometric collision primitive of `check_for_overlaps_with_color` is
Qt's `collidesWithItem` (oriented-shape intersection), which is library
code, not part of this repository. -/

/-- Tile record as seen by the overlap classifier: shape kind, serial
number, untransformed geometry and rotation about the shape's center. -/
structure GTile where
  kind : ShapeKind
  serial : Int
  x : ℝ
  y : ℝ
  width : ℝ
  height : ℝ
  rotDegrees : ℝ

/-- Rotation of a point about a center, by an angle given in degrees. -/
noncomputable def rotAbout (ctr : Pt) (deg : ℝ) (p : Pt) : Pt :=
  let th := deg * Real.pi / 180
  (ctr.1 + Real.cos th * (p.1 - ctr.1) - Real.sin th * (p.2 - ctr.2),
   ctr.2 + Real.sin th * (p.1 - ctr.1) + Real.cos th * (p.2 - ctr.2))

/-- Modelled from the spec: the oriented bounding shape of a tile ("given
two tiles, compute their oriented bounding shapes (rectangle or triangle,
after applying rotation)"); the geometric shapes themselves come from
`ScalableRectangle.__init__` (axis-aligned rect rotated about its center)
and `ScalableTriangle.__init__` (right triangle with legs `size` rotated
about the center of its bounding box), while the point-set intersection
test stands in for Qt's `collidesWithItem`, which is external library
code. -/
noncomputable def shapeSet (t : GTile) : Set Pt :=
  match t.kind with
  | .rectangle =>
    (fun p => rotAbout (t.x + t.width / 2, t.y + t.height / 2) t.rotDegrees p) ''
      {p : Pt | t.x ≤ p.1 ∧ p.1 ≤ t.x + t.width ∧ t.y ≤ p.2 ∧ p.2 ≤ t.y + t.height}
  | .triangle =>
    (fun p => rotAbout (t.x + t.width / 2, t.y + t.width / 2) t.rotDegrees p) ''
      {p : Pt | t.x ≤ p.1 ∧ t.y ≤ p.2 ∧ p.1 - t.x + (p.2 - t.y) ≤ t.width}

/-- Two tiles collide when their oriented shapes intersect. -/
noncomputable def collides (a b : GTile) : Prop :=
  (shapeSet a ∩ shapeSet b).Nonempty

/-- The classification comparison of `check_for_overlaps_with_color`
(line 140: `is_newer = self.serial_number > item.serial_number`). -/
def isNewer (a b : GTile) : Prop :=
  a.serial > b.serial

/-- A sample tile with serial number 1, used to witness the overlap
claims. -/
noncomputable def gTileA : GTile :=
  ⟨ShapeKind.rectangle, 1, 0, 0, 10, 10, 0⟩

/-- A sample tile with serial number 2 at the same location. -/
noncomputable def gTileB : GTile :=
  ⟨ShapeKind.rectangle, 2, 0, 0, 10, 10, 0⟩

/-! ### Collision-avoiding placement (`tessera1_1.py`,
`find_non_overlapping_position`)

The probe logic is parameterized by the collision oracle
`collide nx ny`, standing for
`check_overlap_at_position(QRectF(nx, ny, width, height), angle_degrees)`
(whose geometric test is Qt library code); width, height and angle are
fixed across one search, so the oracle depends only on the candidate
position. -/

/-- The probe loop of `find_non_overlapping_position`: for each attempt,
offset `step_size * (attempt + 1)`, trying forward, backward, then the
two perpendicular directions, returning the first collision-free
candidate. -/
noncomputable def fnopLoop (collide : ℝ → ℝ → Bool) (x y dirx diry perpx perpy step : ℝ) :
    ℕ → ℕ → Option (ℝ × ℝ)
  | _, 0 => none
  | attempt, n + 1 =>
    let off := step * ((attempt : ℝ) + 1)
    let c1 : ℝ × ℝ := (x + dirx * off, y + diry * off)
    if !collide c1.1 c1.2 then some c1
    else
      let c2 : ℝ × ℝ := (x - dirx * off, y - diry * off)
      if !collide c2.1 c2.2 then some c2
      else
        let c3 : ℝ × ℝ := (x + perpx * off, y + perpy * off)
        if !collide c3.1 c3.2 then some c3
        else
          let c4 : ℝ × ℝ := (x - perpx * off, y - perpy * off)
          if !collide c4.1 c4.2 then some c4
          else fnopLoop collide x y dirx diry perpx perpy step (attempt + 1) n

/-- `find_non_overlapping_position(x, y, …, angle_degrees)`: direction
from the angle, perpendicular by 90° rotation, original position first,
then up to `max_attempts = 10` probe rounds with step
`rectangle_size * 0.1`; the original position is the fallback. -/
noncomputable def findNonOverlappingPosition (collide : ℝ → ℝ → Bool) (size x y angleDeg : ℝ) :
    ℝ × ℝ :=
  let rad := angleDeg * Real.pi / 180
  let dirx := Real.cos rad
  let diry := Real.sin rad
  if !collide x y then (x, y)
  else
    match fnopLoop collide x y dirx diry (-diry) dirx (size * 0.1) 0 10 with
    | some p => p
    | none => (x, y)

/-- The candidate positions named by the spec sentence, in probe order:
for step counts 1..10, offset `10% of tile size` times the count, first
forward along the tangent, then backward, then each perpendicular. -/
noncomputable def fnopCandidates (x y dirx diry perpx perpy step : ℝ) (start cnt : ℕ) :
    List (ℝ × ℝ) :=
  (List.range' start cnt).flatMap (fun a =>
    let off := step * ((a : ℝ) + 1)
    [(x + dirx * off, y + diry * off), (x - dirx * off, y - diry * off),
     (x + perpx * off, y + perpy * off), (x - perpx * off, y - perpy * off)])

/-! ## Theorems: discrete layer -/

/-- Counting occurrences in a list difference: `l1.diff l2` removes one
occurrence per occurrence in `l2` and silently skips absent elements. -/
theorem count_diff_eq {α : Type} [DecidableEq α] (a : α) :
    ∀ (l2 l1 : List α), (l1.diff l2).count a = l1.count a - l2.count a
  | [], l1 => by simp
  | b :: l2, l1 => by
    rw [List.diff_cons, count_diff_eq a l2 (l1.erase b), List.count_erase, List.count_cons]
    omega

/-- Unfolding `undo_last_action` on a most-recent `'add_rectangles'`
batch. -/
theorem undoLastAction_addRectangles (s : AppState) (tiles : List Tile)
    (hl : s.undoStack.getLast? = some ⟨ActionType.addRectangles, tiles⟩) :
    undoLastAction s =
      ⟨s.scene.diff tiles, s.rectNextSerial, s.triNextSerial, s.undoStack.dropLast⟩ := by
  unfold undoLastAction
  rw [hl]

/-- C9: invoking clear-all on a workspace containing no tiles records no
batch in the undo ledger; a `'clear_all'` batch is pushed exactly when at
least one tile exists at the moment of the call (so a subsequent undo
acts on the previous batch), and in either case the scene is emptied. -/
theorem clearAll_pushes_iff_scene_nonempty (s : AppState) :
    (clearAll s).scene = [] ∧
    (s.scene = [] → (clearAll s).undoStack = s.undoStack) ∧
    (s.scene ≠ [] → (clearAll s).undoStack =
      addToUndoStack s.undoStack ⟨ActionType.clearAllAction, s.scene⟩) := by
  refine ⟨rfl, fun h => ?_, fun h => ?_⟩
  · simp [clearAll, h]
  · simp [clearAll, List.isEmpty_iff, h]

/-- Witness for `clearAll_pushes_iff_scene_nonempty` at the empty initial
workspace. -/
theorem clearAll_pushes_iff_scene_nonempty_witness :
    initialState.scene = [] ∧ (clearAll initialState).undoStack = initialState.undoStack :=
  ⟨rfl, (clearAll_pushes_iff_scene_nonempty initialState).2.1 rfl⟩

/-- C10: undoing a create-set (`'add_rectangles'`) batch removes only the
batch tiles still present (multiplicity-wise), silently skips the absent
ones, never touches tiles outside the batch, and always succeeds (the
occurrence count of every tile after undo is the count before minus the
count in the batch, truncated at zero). -/
theorem undo_create_batch_skips_absent (s : AppState) (e : UndoEntry)
    (hl : s.undoStack.getLast? = some e) (ht : e.type = ActionType.addRectangles) :
    (∀ t : Tile, (undoLastAction s).scene.count t = s.scene.count t - e.rectangles.count t) ∧
    (undoLastAction s).undoStack = s.undoStack.dropLast := by
  obtain ⟨ty, tiles⟩ := e
  cases ht
  rw [undoLastAction_addRectangles s tiles hl]
  exact ⟨fun t => count_diff_eq t tiles s.scene, rfl⟩

/-- Witness for `undo_create_batch_skips_absent` on a state whose top
batch records a tile that is no longer in the scene: undo succeeds and
removes nothing. -/
theorem undo_create_batch_skips_absent_witness :
    (AppState.mk [] 1 1 [⟨ActionType.addRectangles,
        [⟨ShapeKind.rectangle, 1, 0, 0, 10, 10, 0, "", "", false⟩]⟩]).undoStack.getLast? =
      some ⟨ActionType.addRectangles,
        [⟨ShapeKind.rectangle, 1, 0, 0, 10, 10, 0, "", "", false⟩]⟩ ∧
    (undoLastAction (AppState.mk [] 1 1 [⟨ActionType.addRectangles,
        [⟨ShapeKind.rectangle, 1, 0, 0, 10, 10, 0, "", "", false⟩]⟩])).scene.count
        ⟨ShapeKind.rectangle, 1, 0, 0, 10, 10, 0, "", "", false⟩ = 0 := by
  refine ⟨rfl, ?_⟩
  have h := (undo_create_batch_skips_absent
    (AppState.mk [] 1 1 [⟨ActionType.addRectangles,
      [⟨ShapeKind.rectangle, 1, 0, 0, 10, 10, 0, "", "", false⟩]⟩])
    ⟨ActionType.addRectangles, [⟨ShapeKind.rectangle, 1, 0, 0, 10, 10, 0, "", "", false⟩]⟩
    rfl rfl).1 ⟨ShapeKind.rectangle, 1, 0, 0, 10, 10, 0, "", "", false⟩
  simpa using h

/-- C5 (code evaluated at the failing input): a session that adds one
triangle pushes an `'add_triangles'` batch; `undo_last_action` pops that
batch but has no branch for its type, so the triangle stays in the scene
— contradicting the claim that undoing a create-set batch removes the
recorded tiles. -/
theorem undo_ignores_add_triangles_batch :
    ((undoLastAction (runOps [Op.addTri 0 0 10 ""]).1).scene =
      (runOps [Op.addTri 0 0 10 ""]).1.scene) ∧
    (runOps [Op.addTri 0 0 10 ""]).1.scene ≠ [] ∧
    (undoLastAction (runOps [Op.addTri 0 0 10 ""]).1).undoStack = [] := by
  refine ⟨rfl, ?_, rfl⟩
  decide

/-- C1 (counterexample): a session that creates one rectangle and then
one triangle assigns serial number 1 to both (the two shape classes keep
independent `_next_serial_number` counters), so serial numbers are
neither globally unique nor strictly increasing across all tiles ever
created. -/
theorem serials_not_globally_unique :
    ((runOps [Op.addRect 0 0 10 10 "", Op.addTri 0 0 10 ""]).2.map
        (fun c => c.tile.serial)) = [1, 1] ∧
    ¬ List.Chain' (fun a b => a < b)
        ((runOps [Op.addRect 0 0 10 10 "", Op.addTri 0 0 10 ""]).2.map
          (fun c => c.tile.serial)) ∧
    ¬ List.Pairwise (fun a b => a ≠ b)
        ((runOps [Op.addRect 0 0 10 10 "", Op.addTri 0 0 10 ""]).2.map
          (fun c => c.tile.serial)) := by
  have hmap : ((runOps [Op.addRect 0 0 10 10 "", Op.addTri 0 0 10 ""]).2.map
      (fun c => c.tile.serial)) = [1, 1] := by decide
  refine ⟨hmap, ?_, ?_⟩
  · intro h
    rw [hmap] at h
    simp [List.chain'_cons] at h
  · intro h
    rw [hmap] at h
    simp at h

/-! ### Serial-number freshness (claims C1 and C7) -/

/-- The first component committed for a row is the reconstructed tile. -/
theorem commitRow_fst (s : AppState) (pr : ParsedRow) :
    (commitRow s pr).1 = mkImportTile pr := by
  unfold commitRow
  split <;> rfl

/-- The reconstructed tile keeps the row's serial number. -/
theorem mkImportTile_serial (pr : ParsedRow) : (mkImportTile pr).serial = pr.serial := by
  unfold mkImportTile
  split <;> rfl

/-- The reconstructed tile's shape kind matches the row's type cell. -/
theorem mkImportTile_kind (pr : ParsedRow) :
    (mkImportTile pr).kind =
      (if pr.isTriangle then ShapeKind.triangle else ShapeKind.rectangle) := by
  unfold mkImportTile
  split <;> simp_all

/-- Committing a row never decreases either class counter. -/
theorem commitRow_counters_le (s : AppState) (pr : ParsedRow) :
    s.rectNextSerial ≤ (commitRow s pr).2.rectNextSerial ∧
    s.triNextSerial ≤ (commitRow s pr).2.triNextSerial := by
  unfold commitRow
  split
  · refine ⟨le_refl _, ?_⟩
    split <;> simp <;> omega
  · refine ⟨?_, le_refl _⟩
    split <;> simp <;> omega

/-- Committing a row leaves its class counter strictly above the row's
serial number. -/
theorem commitRow_serial_lt (s : AppState) (pr : ParsedRow) :
    (pr.isTriangle = true → pr.serial < (commitRow s pr).2.triNextSerial) ∧
    (pr.isTriangle = false → pr.serial < (commitRow s pr).2.rectNextSerial) := by
  unfold commitRow
  cases h : pr.isTriangle <;> simp [h] <;> split <;> omega

/-- The import loop never decreases either class counter. -/
theorem importRows_counters_le :
    ∀ (rows : List (List Cell)) (s : AppState),
      s.rectNextSerial ≤ (importRows s rows).1.rectNextSerial ∧
      s.triNextSerial ≤ (importRows s rows).1.triNextSerial
  | [], s => ⟨le_refl _, le_refl _⟩
  | row :: rows, s => by
    unfold importRows
    cases hp : parseRow row
    · exact importRows_counters_le rows s
    · rename_i pr
      have h1 := commitRow_counters_le s pr
      have h2 := importRows_counters_le rows (commitRow s pr).2
      exact ⟨le_trans h1.1 h2.1, le_trans h1.2 h2.2⟩

/-- One-step unfolding of the import loop on a malformed row. -/
theorem importRows_cons_none {row : List Cell} (s : AppState) (rows : List (List Cell))
    (hp : parseRow row = none) :
    importRows s (row :: rows) = importRows s rows := by
  show (match parseRow row with
    | none => importRows s rows
    | some pr =>
      let p := commitRow s pr
      let r := importRows p.2 rows
      (r.1, p.1 :: r.2)) = importRows s rows
  rw [hp]

/-- One-step unfolding of the import loop on a valid row. -/
theorem importRows_cons_some {row : List Cell} {pr : ParsedRow} (s : AppState)
    (rows : List (List Cell)) (hp : parseRow row = some pr) :
    importRows s (row :: rows) =
      ((importRows (commitRow s pr).2 rows).1,
        (commitRow s pr).1 :: (importRows (commitRow s pr).2 rows).2) := by
  show (match parseRow row with
    | none => importRows s rows
    | some pr =>
      let p := commitRow s pr
      let r := importRows p.2 rows
      (r.1, p.1 :: r.2)) = _
  rw [hp]

/-- Full behaviour of the import loop: the created tiles are exactly the
reconstructions of the parse-surviving rows (in order), their number is
the reported success count, and each class counter ends strictly above
every serial imported for its kind. -/
theorem importRows_spec (rows : List (List Cell)) (s : AppState) :
    (importRows s rows).2 = (rows.filterMap parseRow).map mkImportTile ∧
    (importRows s rows).2.length = (rows.filterMap parseRow).length ∧
    ∀ pr ∈ rows.filterMap parseRow,
      (pr.isTriangle = false → pr.serial < (importRows s rows).1.rectNextSerial) ∧
      (pr.isTriangle = true → pr.serial < (importRows s rows).1.triNextSerial) := by
  induction rows generalizing s with
  | nil => exact ⟨rfl, rfl, by simp⟩
  | cons row rows ih =>
    cases hp : parseRow row with
    | none =>
      rw [importRows_cons_none s rows hp, List.filterMap_cons_none hp]
      exact ih s
    | some pr =>
      have hr := importRows_cons_some s rows hp
      have ihs := ih (commitRow s pr).2
      rw [hr, List.filterMap_cons_some hp]
      refine ⟨?_, ?_, ?_⟩
      · rw [List.map_cons, commitRow_fst, ihs.1]
      · simp [ihs.1]
      · intro q hq
        rcases List.mem_cons.mp hq with hq | hq
        · subst hq
          have hlt := commitRow_serial_lt s q
          have hle := importRows_counters_le rows (commitRow s q).2
          exact ⟨fun hf => lt_of_lt_of_le (hlt.2 hf) hle.1,
                 fun ht => lt_of_lt_of_le (hlt.1 ht) hle.2⟩
        · exact ihs.2.2 q hq

/-- C7 (amended): each malformed row (fewer than 10 cells, or a numeric
field that fails to parse) is skipped individually and import continues;
each valid row yields exactly one reconstructed tile preserving the row's
serial number; the reported success count is the number of valid rows;
and, separately for each shape kind, the kind's next-serial counter ends
strictly above every serial imported for that kind. -/
theorem import_skips_preserves_and_advances_per_kind
    (rows : List (List Cell)) (s : AppState) :
    (importRows s rows).2 = (rows.filterMap parseRow).map mkImportTile ∧
    (importRows s rows).2.length = (rows.filterMap parseRow).length ∧
    ∀ pr ∈ rows.filterMap parseRow,
      (pr.isTriangle = false → pr.serial < (importRows s rows).1.rectNextSerial) ∧
      (pr.isTriangle = true → pr.serial < (importRows s rows).1.triNextSerial) :=
  importRows_spec rows s

/-- Witness for `import_skips_preserves_and_advances_per_kind`: importing
the sample triangle row (serial 9) leaves the triangle counter above 9. -/
theorem import_skips_preserves_and_advances_per_kind_witness :
    (ParsedRow.mk 9 true 0 0 10 10 0 "#8B4513" "" false) ∈
      ([sampleTriRow9].filterMap parseRow) ∧
    (9 : Int) < (importRows initialState [sampleTriRow9]).1.triNextSerial :=
  ⟨by decide,
   ((import_skips_preserves_and_advances_per_kind [sampleTriRow9] initialState).2.2
      (ParsedRow.mk 9 true 0 0 10 10 0 "#8B4513" "" false) (by decide)).2 rfl⟩

/-- C7 (counterexample): importing a triangle row with serial 9 and a
rectangle row with serial 5 leaves the rectangle class counter at 6,
which is not past the maximum imported serial number 9: the next created
rectangle receives serial 6 even though serial 9 was imported. -/
theorem import_not_past_global_max :
    (runOps [Op.importCSV [sampleTriRow9, sampleRectRow5]]).1.rectNextSerial = 6 ∧
    (9 : Int) ∈ ((runOps [Op.importCSV [sampleTriRow9, sampleRectRow5]]).2.map
      (fun c => c.tile.serial)) ∧
    ((runOps [Op.importCSV [sampleTriRow9, sampleRectRow5],
        Op.addRect 0 0 10 10 ""]).2.map (fun c => c.tile.serial)) = [9, 5, 6] ∧
    ¬ (9 : Int) < 6 := by
  refine ⟨by decide, by decide, by decide, by decide⟩

/-- Unfolded form of `serialBound` on an explicit state. -/
theorem serialBound_mk (sc : List Tile) (rc tc : Int) (us : List UndoEntry) (c : Created) :
    serialBound ⟨sc, rc, tc, us⟩ c ↔
      ((c.tile.kind = ShapeKind.rectangle → c.tile.serial < rc) ∧
       (c.tile.kind = ShapeKind.triangle → c.tile.serial < tc)) :=
  Iff.rfl

/-- The serial-bound invariant is monotone in the counters. -/
theorem serialBound_mono {s1 s2 : AppState} (h1 : s1.rectNextSerial ≤ s2.rectNextSerial)
    (h2 : s1.triNextSerial ≤ s2.triNextSerial) {c : Created} :
    serialBound s1 c → serialBound s2 c :=
  fun hb => ⟨fun hk => lt_of_lt_of_le (hb.1 hk) h1, fun hk => lt_of_lt_of_le (hb.2 hk) h2⟩

/-- Imported creation events satisfy `freshRel` vacuously as later
elements. -/
theorem pairwise_imported (ts : List Tile) :
    (ts.map (fun t => Created.mk t Origin.imported)).Pairwise freshRel := by
  induction ts with
  | nil => exact List.Pairwise.nil
  | cons t ts ih =>
    rw [List.map_cons, List.pairwise_cons]
    refine ⟨fun b hbmem _ hor => ?_, ih⟩
    rcases List.mem_map.mp hbmem with ⟨u, _, rfl⟩
    exact absurd hor (by simp)

/-- `undo_last_action` never changes the serial counters. -/
theorem undoLastAction_counters (s : AppState) :
    (undoLastAction s).rectNextSerial = s.rectNextSerial ∧
    (undoLastAction s).triNextSerial = s.triNextSerial := by
  unfold undoLastAction
  split
  · exact ⟨rfl, rfl⟩
  · split <;> exact ⟨rfl, rfl⟩

/-- Every tile created by the import loop has its serial below the final
counter of its kind. -/
theorem importRows_created_bound (rows : List (List Cell)) (s : AppState) :
    ∀ t ∈ (importRows s rows).2,
      (t.kind = ShapeKind.rectangle → t.serial < (importRows s rows).1.rectNextSerial) ∧
      (t.kind = ShapeKind.triangle → t.serial < (importRows s rows).1.triNextSerial) := by
  intro t ht
  have hspec := importRows_spec rows s
  rw [hspec.1] at ht
  rcases List.mem_map.mp ht with ⟨pr, hpr, rfl⟩
  have hbd := hspec.2.2 pr hpr
  rw [mkImportTile_serial, mkImportTile_kind]
  cases h : pr.isTriangle with
  | false => exact ⟨fun _ => hbd.1 h, fun hk => by simp [h] at hk⟩
  | true => exact ⟨fun hk => by simp [h] at hk, fun _ => hbd.2 h⟩

/-- Each operation preserves the serial-bound invariant and pairwise
freshness of the creation log. -/
theorem stepOp_preserves (acc : AppState × List Created) (op : Op)
    (hb : ∀ c ∈ acc.2, serialBound acc.1 c) (hp : acc.2.Pairwise freshRel) :
    (∀ c ∈ (stepOp acc op).2, serialBound (stepOp acc op).1 c) ∧
    ((stepOp acc op).2).Pairwise freshRel := by
  obtain ⟨s, log⟩ := acc
  cases op with
  | addRect x y w h col =>
    refine ⟨fun c hc => ?_, ?_⟩
    · rcases List.mem_append.mp hc with hcm | hcm
      · have h1 : (s, log).1.rectNextSerial ≤
            (stepOp (s, log) (Op.addRect x y w h col)).1.rectNextSerial := by
          simp [stepOp, addRectangle]
        have h2 : (s, log).1.triNextSerial ≤
            (stepOp (s, log) (Op.addRect x y w h col)).1.triNextSerial := le_of_eq rfl
        exact serialBound_mono h1 h2 (hb c hcm)
      · rcases List.mem_singleton.mp hcm with rfl
        rw [show (stepOp (s, log) (Op.addRect x y w h col)).1 =
          ⟨s.scene ++ [⟨.rectangle, s.rectNextSerial, x, y, w, h, 0, col, "", false⟩],
           s.rectNextSerial + 1, s.triNextSerial,
           addToUndoStack s.undoStack ⟨.addRectangles,
             [⟨.rectangle, s.rectNextSerial, x, y, w, h, 0, col, "", false⟩]⟩⟩ from rfl,
          serialBound_mk]
        exact ⟨fun _ => lt_add_one _, fun hk => by simp at hk⟩
    · refine List.pairwise_append.mpr ⟨hp, List.pairwise_singleton _ _, ?_⟩
      intro a ha b hbmem
      rcases List.mem_singleton.mp hbmem with rfl
      intro hk _
      exact (hb a ha).1 hk
  | addTri x y size col =>
    refine ⟨fun c hc => ?_, ?_⟩
    · rcases List.mem_append.mp hc with hcm | hcm
      · have h1 : (s, log).1.rectNextSerial ≤
            (stepOp (s, log) (Op.addTri x y size col)).1.rectNextSerial := le_of_eq rfl
        have h2 : (s, log).1.triNextSerial ≤
            (stepOp (s, log) (Op.addTri x y size col)).1.triNextSerial := by
          simp [stepOp, addTriangle]
        exact serialBound_mono h1 h2 (hb c hcm)
      · rcases List.mem_singleton.mp hcm with rfl
        rw [show (stepOp (s, log) (Op.addTri x y size col)).1 =
          ⟨s.scene ++ [⟨.triangle, s.triNextSerial, x, y, size, size, 0, col, "", false⟩],
           s.rectNextSerial, s.triNextSerial + 1,
           addToUndoStack s.undoStack ⟨.addTriangles,
             [⟨.triangle, s.triNextSerial, x, y, size, size, 0, col, "", false⟩]⟩⟩ from rfl,
          serialBound_mk]
        exact ⟨fun hk => by simp at hk, fun _ => lt_add_one _⟩
    · refine List.pairwise_append.mpr ⟨hp, List.pairwise_singleton _ _, ?_⟩
      intro a ha b hbmem
      rcases List.mem_singleton.mp hbmem with rfl
      intro hk _
      exact (hb a ha).2 hk
  | importCSV rows =>
    have hstep : stepOp (s, log) (Op.importCSV rows) =
        ((importRows s rows).1,
          log ++ (importRows s rows).2.map (fun t => Created.mk t Origin.imported)) := rfl
    rw [hstep]
    have hmono := importRows_counters_le rows s
    refine ⟨fun c hc => ?_, ?_⟩
    · rcases List.mem_append.mp hc with hcm | hcm
      · exact serialBound_mono hmono.1 hmono.2 (hb c hcm)
      · rcases List.mem_map.mp hcm with ⟨t, htm, rfl⟩
        exact importRows_created_bound rows s t htm
    · refine List.pairwise_append.mpr ⟨hp, pairwise_imported _, ?_⟩
      intro a _ b hbmem _ hor
      rcases List.mem_map.mp hbmem with ⟨u, _, rfl⟩
      exact absurd hor (by simp)
  | clearAllOp =>
    exact ⟨fun c hc => serialBound_mono (le_of_eq rfl) (le_of_eq rfl) (hb c hc), hp⟩
  | undoOp =>
    have hcount := undoLastAction_counters s
    exact ⟨fun c hc =>
      serialBound_mono (le_of_eq hcount.1.symm) (le_of_eq hcount.2.symm) (hb c hc), hp⟩

/-- Folding a session preserves the invariant and pairwise freshness. -/
theorem foldOps_preserves (ops : List Op) :
    ∀ acc : AppState × List Created, (∀ c ∈ acc.2, serialBound acc.1 c) →
      acc.2.Pairwise freshRel →
      (∀ c ∈ (ops.foldl stepOp acc).2, serialBound (ops.foldl stepOp acc).1 c) ∧
      ((ops.foldl stepOp acc).2).Pairwise freshRel := by
  induction ops with
  | nil => intro acc hb hp; exact ⟨hb, hp⟩
  | cons op ops ih =>
    intro acc hb hp
    rw [List.foldl_cons]
    have h1 := stepOp_preserves acc op hb hp
    exact ih (stepOp acc op) h1.1 h1.2

/-- C1 (amended): over any session, the creation log is pairwise fresh
per shape kind — every auto-assigned creation (single add or path
placement) has a serial number strictly greater than that of every
earlier creation of the same shape kind, whether that earlier serial was
auto-assigned or imported; hence within each shape kind auto-assigned
serials are strictly increasing, pairwise unique, and never reused even
after deletions and undo.  (Uniqueness does not hold across the two
shape kinds, and CSV import copies serials verbatim from the file.) -/
theorem serials_fresh_per_kind (ops : List Op) :
    ((runOps ops).2).Pairwise freshRel :=
  (foldOps_preserves ops (initialState, []) (by simp) List.Pairwise.nil).2

/-! ## Theorems: overlap classification (claim C4) -/

/-- C4: overlap detection is symmetric — tile A collides with tile B
exactly when B collides with A — while classification is asymmetric: for
colliding tiles with distinct serial numbers exactly one of the two is
classified as newer, namely the one with the strictly larger serial
number. -/
theorem overlap_symmetric_newer_asymmetric (A B : GTile) (h : A.serial ≠ B.serial) :
    (collides A B ↔ collides B A) ∧
    (collides A B →
      ((isNewer A B ∧ ¬ isNewer B A) ∨ (isNewer B A ∧ ¬ isNewer A B)) ∧
      (isNewer A B ↔ B.serial < A.serial)) := by
  refine ⟨?_, fun _ => ⟨?_, Iff.rfl⟩⟩
  · unfold collides
    rw [Set.inter_comm]
  · unfold isNewer
    rcases lt_trichotomy A.serial B.serial with hlt | heq | hgt
    · exact Or.inr ⟨hlt, not_lt.mpr (le_of_lt hlt)⟩
    · exact absurd heq h
    · exact Or.inl ⟨hgt, not_lt.mpr (le_of_lt hgt)⟩

/-- Witness for `overlap_symmetric_newer_asymmetric` at two co-located
tiles with serials 1 and 2. -/
theorem overlap_symmetric_newer_asymmetric_witness :
    gTileA.serial ≠ gTileB.serial ∧
    ((collides gTileA gTileB ↔ collides gTileB gTileA) ∧
      (collides gTileA gTileB →
        ((isNewer gTileA gTileB ∧ ¬ isNewer gTileB gTileA) ∨
         (isNewer gTileB gTileA ∧ ¬ isNewer gTileA gTileB)) ∧
        (isNewer gTileA gTileB ↔ gTileB.serial < gTileA.serial))) :=
  ⟨by decide, overlap_symmetric_newer_asymmetric gTileA gTileB (by decide)⟩

/-! ## Theorems: collision-avoiding placement (claim C8) -/

/-- The probe loop returns exactly the first collision-free candidate of
the ordered candidate list. -/
theorem fnopLoop_eq_find (collide : ℝ → ℝ → Bool) (x y dirx diry perpx perpy step : ℝ) :
    ∀ (n attempt : ℕ),
      fnopLoop collide x y dirx diry perpx perpy step attempt n =
        (fnopCandidates x y dirx diry perpx perpy step attempt n).find?
          (fun c => !collide c.1 c.2) := by
  intro n
  induction n with
  | zero =>
    intro attempt
    simp [fnopLoop, fnopCandidates]
  | succ n ih =>
    intro attempt
    have hcand : fnopCandidates x y dirx diry perpx perpy step attempt (n + 1) =
        (x + dirx * (step * ((attempt : ℝ) + 1)), y + diry * (step * ((attempt : ℝ) + 1))) ::
        (x - dirx * (step * ((attempt : ℝ) + 1)), y - diry * (step * ((attempt : ℝ) + 1))) ::
        (x + perpx * (step * ((attempt : ℝ) + 1)), y + perpy * (step * ((attempt : ℝ) + 1))) ::
        (x - perpx * (step * ((attempt : ℝ) + 1)), y - perpy * (step * ((attempt : ℝ) + 1))) ::
        fnopCandidates x y dirx diry perpx perpy step (attempt + 1) n := by
      unfold fnopCandidates
      rw [List.range'_succ]
      simp only [List.flatMap_cons, List.cons_append, List.nil_append]
    rw [hcand]
    simp only [fnopLoop]
    cases h1 : collide (x + dirx * (step * ((attempt : ℝ) + 1)))
        (y + diry * (step * ((attempt : ℝ) + 1))) with
    | false => simp [h1]
    | true =>
      cases h2 : collide (x - dirx * (step * ((attempt : ℝ) + 1)))
          (y - diry * (step * ((attempt : ℝ) + 1))) with
      | false => simp [h1, h2]
      | true =>
        cases h3 : collide (x + perpx * (step * ((attempt : ℝ) + 1)))
            (y + perpy * (step * ((attempt : ℝ) + 1))) with
        | false => simp [h1, h2, h3]
        | true =>
          cases h4 : collide (x - perpx * (step * ((attempt : ℝ) + 1)))
              (y - perpy * (step * ((attempt : ℝ) + 1))) with
          | false => simp [h1, h2, h3, h4]
          | true => simp [h1, h2, h3, h4, ih]

/-- C8: when the computed position collides, the placer probes the 40
candidates at offsets of 10% of tile size times 1..10, for each step size
first forward along the tangent, then backward, then the two
perpendicular directions, and returns the first collision-free
candidate; if all probes collide, the original position is returned
unchanged (the fallback of `find? … |>.getD`). -/
theorem find_non_overlapping_first_free (collide : ℝ → ℝ → Bool) (size x y angleDeg : ℝ)
    (h : collide x y = true) :
    findNonOverlappingPosition collide size x y angleDeg =
      ((fnopCandidates x y (Real.cos (angleDeg * Real.pi / 180))
          (Real.sin (angleDeg * Real.pi / 180))
          (-Real.sin (angleDeg * Real.pi / 180))
          (Real.cos (angleDeg * Real.pi / 180)) (size * 0.1) 0 10).find?
        (fun c => !collide c.1 c.2)).getD (x, y) := by
  have hred : findNonOverlappingPosition collide size x y angleDeg =
      (match fnopLoop collide x y (Real.cos (angleDeg * Real.pi / 180))
          (Real.sin (angleDeg * Real.pi / 180)) (-Real.sin (angleDeg * Real.pi / 180))
          (Real.cos (angleDeg * Real.pi / 180)) (size * 0.1) 0 10 with
        | some p => p
        | none => (x, y)) := by
    unfold findNonOverlappingPosition
    rw [h]
    rfl
  rw [hred, fnopLoop_eq_find collide x y (Real.cos (angleDeg * Real.pi / 180))
    (Real.sin (angleDeg * Real.pi / 180)) (-Real.sin (angleDeg * Real.pi / 180))
    (Real.cos (angleDeg * Real.pi / 180)) (size * 0.1) 10 0]
  cases hfind : (fnopCandidates x y (Real.cos (angleDeg * Real.pi / 180))
      (Real.sin (angleDeg * Real.pi / 180)) (-Real.sin (angleDeg * Real.pi / 180))
      (Real.cos (angleDeg * Real.pi / 180)) (size * 0.1) 0 10).find?
      (fun c => !collide c.1 c.2) with
  | none => rfl
  | some p => rfl

/-- Witness for `find_non_overlapping_first_free` with an oracle that
reports a collision everywhere: the search falls back to the original
position. -/
theorem find_non_overlapping_first_free_witness :
    (fun _ _ => true : ℝ → ℝ → Bool) 0 0 = true ∧
    findNonOverlappingPosition (fun _ _ => true) 10 0 0 0 =
      ((fnopCandidates 0 0 (Real.cos (0 * Real.pi / 180)) (Real.sin (0 * Real.pi / 180))
          (-Real.sin (0 * Real.pi / 180)) (Real.cos (0 * Real.pi / 180))
          ((10 : ℝ) * 0.1) 0 10).find? (fun c => !(fun _ _ => true : ℝ → ℝ → Bool) c.1 c.2)).getD
        (0, 0) :=
  ⟨rfl, find_non_overlapping_first_free (fun _ _ => true) 10 0 0 0 rfl⟩

/-! ## Theorems: the shared placement loop -/

/-- Exit case of the shared while loop. -/
theorem targetLoop_stop {α : Type} {spacing c L t : ℝ} (f : ℝ → α)
    (h : ¬ (0 < spacing ∧ t ≤ c + L)) :
    targetLoop spacing c L f t = ([], t) := by
  rw [targetLoop, dif_neg h]

/-- Iteration case of the shared while loop. -/
theorem targetLoop_step {α : Type} {spacing c L t : ℝ} (f : ℝ → α)
    (h1 : 0 < spacing) (h2 : t ≤ c + L) :
    targetLoop spacing c L f t =
      ((if 0 < L then [f t] else []) ++ (targetLoop spacing c L f (t + spacing)).1,
       (targetLoop spacing c L f (t + spacing)).2) := by
  rw [targetLoop, dif_pos ⟨h1, h2⟩]

/-- Exit case of the target list. -/
theorem targetsFrom_stop {spacing b t : ℝ} (h : ¬ (0 < spacing ∧ t ≤ b)) :
    targetsFrom spacing b t = [] := by
  rw [targetsFrom, dif_neg h]

/-- Iteration case of the target list. -/
theorem targetsFrom_step {spacing b t : ℝ} (h1 : 0 < spacing) (h2 : t ≤ b) :
    targetsFrom spacing b t = t :: targetsFrom spacing b (t + spacing) := by
  rw [targetsFrom, dif_pos ⟨h1, h2⟩]

/-- Exit case of the final-target value. -/
theorem nextFrom_stop {spacing b t : ℝ} (h : ¬ (0 < spacing ∧ t ≤ b)) :
    nextFrom spacing b t = t := by
  rw [nextFrom, dif_neg h]

/-- Iteration case of the final-target value. -/
theorem nextFrom_step {spacing b t : ℝ} (h1 : 0 < spacing) (h2 : t ≤ b) :
    nextFrom spacing b t = nextFrom spacing b (t + spacing) := by
  rw [nextFrom, dif_pos ⟨h1, h2⟩]

/-- The emitted elements of one segment loop: one per consumed target
when the segment has positive length, none otherwise. -/
theorem targetLoop_fst {α : Type} (spacing c L : ℝ) (f : ℝ → α) (t : ℝ) :
    (targetLoop spacing c L f t).1 =
      if 0 < L then (targetsFrom spacing (c + L) t).map f else [] := by
  by_cases h : 0 < spacing ∧ t ≤ c + L
  · rw [targetLoop_step f h.1 h.2, targetsFrom_step h.1 h.2,
      targetLoop_fst spacing c L f (t + spacing)]
    by_cases hL : 0 < L <;> simp [hL]
  · rw [targetLoop_stop f h, targetsFrom_stop h]
    by_cases hL : 0 < L <;> simp [hL]
termination_by (⌊(c + L - t) / spacing⌋ + 1).toNat
decreasing_by
  have hsp : 0 < spacing := h.1
  have hx : (0:ℝ) ≤ (c + L - t) / spacing :=
    div_nonneg (by linarith [h.2]) (le_of_lt hsp)
  have hfl : (0:ℤ) ≤ ⌊(c + L - t) / spacing⌋ := Int.floor_nonneg.mpr hx
  have hne : spacing ≠ 0 := ne_of_gt hsp
  have harg : c + L - (t + spacing) = c + L - t - spacing := by ring
  have hstep : (c + L - (t + spacing)) / spacing = (c + L - t) / spacing - 1 := by
    rw [harg, sub_div, div_self hne]
  have : ⌊(c + L - (t + spacing)) / spacing⌋ = ⌊(c + L - t) / spacing⌋ - 1 := by
    rw [hstep]
    exact_mod_cast Int.floor_sub_int ((c + L - t) / spacing) 1
  omega

/-- The final target of one segment loop. -/
theorem targetLoop_snd {α : Type} (spacing c L : ℝ) (f : ℝ → α) (t : ℝ) :
    (targetLoop spacing c L f t).2 = nextFrom spacing (c + L) t := by
  by_cases h : 0 < spacing ∧ t ≤ c + L
  · rw [targetLoop_step f h.1 h.2, nextFrom_step h.1 h.2,
      targetLoop_snd spacing c L f (t + spacing)]
  · rw [targetLoop_stop f h, nextFrom_stop h]
termination_by (⌊(c + L - t) / spacing⌋ + 1).toNat
decreasing_by
  have hsp : 0 < spacing := h.1
  have hx : (0:ℝ) ≤ (c + L - t) / spacing :=
    div_nonneg (by linarith [h.2]) (le_of_lt hsp)
  have hfl : (0:ℤ) ≤ ⌊(c + L - t) / spacing⌋ := Int.floor_nonneg.mpr hx
  have hne : spacing ≠ 0 := ne_of_gt hsp
  have harg : c + L - (t + spacing) = c + L - t - spacing := by ring
  have hstep : (c + L - (t + spacing)) / spacing = (c + L - t) / spacing - 1 := by
    rw [harg, sub_div, div_self hne]
  have : ⌊(c + L - (t + spacing)) / spacing⌋ = ⌊(c + L - t) / spacing⌋ - 1 := by
    rw [hstep]
    exact_mod_cast Int.floor_sub_int ((c + L - t) / spacing) 1
  omega

/-- The loop leaves its final target strictly beyond the bound. -/
theorem nextFrom_gt (spacing b t : ℝ) (hsp : 0 < spacing) : b < nextFrom spacing b t := by
  by_cases h : t ≤ b
  · rw [nextFrom_step hsp h]
    exact nextFrom_gt spacing b (t + spacing) hsp
  · rw [nextFrom_stop (fun hc => h hc.2)]
    exact lt_of_not_ge h
termination_by (⌊(b - t) / spacing⌋ + 1).toNat
decreasing_by
  have hx : (0:ℝ) ≤ (b - t) / spacing := div_nonneg (by linarith) (le_of_lt hsp)
  have hfl : (0:ℤ) ≤ ⌊(b - t) / spacing⌋ := Int.floor_nonneg.mpr hx
  have hne : spacing ≠ 0 := ne_of_gt hsp
  have harg : b - (t + spacing) = b - t - spacing := by ring
  have hstep : (b - (t + spacing)) / spacing = (b - t) / spacing - 1 := by
    rw [harg, sub_div, div_self hne]
  have : ⌊(b - (t + spacing)) / spacing⌋ = ⌊(b - t) / spacing⌋ - 1 := by
    rw [hstep]
    exact_mod_cast Int.floor_sub_int ((b - t) / spacing) 1
  omega

/-- Every consumed target lies between the start target and the bound. -/
theorem targetsFrom_mem {spacing b t td : ℝ} (hsp : 0 < spacing)
    (hmem : td ∈ targetsFrom spacing b t) : t ≤ td ∧ td ≤ b := by
  by_cases h : t ≤ b
  · rw [targetsFrom_step hsp h] at hmem
    rcases List.mem_cons.mp hmem with rfl | hmem
    · exact ⟨le_refl _, h⟩
    · have := targetsFrom_mem hsp hmem
      exact ⟨by linarith [this.1], this.2⟩
  · rw [targetsFrom_stop (fun hc => h hc.2)] at hmem
    exact absurd hmem (List.not_mem_nil td)
termination_by (⌊(b - t) / spacing⌋ + 1).toNat
decreasing_by
  have hx : (0:ℝ) ≤ (b - t) / spacing := div_nonneg (by linarith) (le_of_lt hsp)
  have hfl : (0:ℤ) ≤ ⌊(b - t) / spacing⌋ := Int.floor_nonneg.mpr hx
  have hne : spacing ≠ 0 := ne_of_gt hsp
  have harg : b - (t + spacing) = b - t - spacing := by ring
  have hstep : (b - (t + spacing)) / spacing = (b - t) / spacing - 1 := by
    rw [harg, sub_div, div_self hne]
  have : ⌊(b - (t + spacing)) / spacing⌋ = ⌊(b - t) / spacing⌋ - 1 := by
    rw [hstep]
    exact_mod_cast Int.floor_sub_int ((b - t) / spacing) 1
  omega

/-- Splitting the target list at an intermediate bound: the targets up to
the final bound are the targets up to the first bound followed by the
targets resuming from the loop's final value. -/
theorem targetsFrom_split {spacing b b2 t : ℝ} (hsp : 0 < spacing) (hb : b ≤ b2) :
    targetsFrom spacing b2 t =
      targetsFrom spacing b t ++ targetsFrom spacing b2 (nextFrom spacing b t) := by
  by_cases h : t ≤ b
  · rw [targetsFrom_step hsp h, targetsFrom_step hsp (le_trans h hb),
      nextFrom_step hsp h, targetsFrom_split hsp hb]
    rfl
  · rw [targetsFrom_stop (fun hc => h hc.2), nextFrom_stop (fun hc => h hc.2),
      List.nil_append]
termination_by (⌊(b - t) / spacing⌋ + 1).toNat
decreasing_by
  have hx : (0:ℝ) ≤ (b - t) / spacing := div_nonneg (by linarith) (le_of_lt hsp)
  have hfl : (0:ℤ) ≤ ⌊(b - t) / spacing⌋ := Int.floor_nonneg.mpr hx
  have hne : spacing ≠ 0 := ne_of_gt hsp
  have harg : b - (t + spacing) = b - t - spacing := by ring
  have hstep : (b - (t + spacing)) / spacing = (b - t) / spacing - 1 := by
    rw [harg, sub_div, div_self hne]
  have : ⌊(b - (t + spacing)) / spacing⌋ = ⌊(b - t) / spacing⌋ - 1 := by
    rw [hstep]
    exact_mod_cast Int.floor_sub_int ((b - t) / spacing) 1
  omega

/-- Closed form of the target list: one target per whole spacing that
fits between the start and the bound. -/
theorem targetsFrom_closed {spacing b t : ℝ} (hsp : 0 < spacing) :
    targetsFrom spacing b t =
      (List.range (⌊(b - t) / spacing⌋ + 1).toNat).map
        (fun (i : ℕ) => t + (i : ℝ) * spacing) := by
  by_cases h : t ≤ b
  · have hx : (0:ℝ) ≤ (b - t) / spacing := div_nonneg (by linarith) (le_of_lt hsp)
    have hfl : (0:ℤ) ≤ ⌊(b - t) / spacing⌋ := Int.floor_nonneg.mpr hx
    have hne : spacing ≠ 0 := ne_of_gt hsp
    have harg : b - (t + spacing) = b - t - spacing := by ring
    have hstep : (b - (t + spacing)) / spacing = (b - t) / spacing - 1 := by
      rw [harg, sub_div, div_self hne]
    have hfloor : ⌊(b - (t + spacing)) / spacing⌋ = ⌊(b - t) / spacing⌋ - 1 := by
      rw [hstep]
      exact_mod_cast Int.floor_sub_int ((b - t) / spacing) 1
    have hn : (⌊(b - t) / spacing⌋ + 1).toNat =
        (⌊(b - (t + spacing)) / spacing⌋ + 1).toNat + 1 := by omega
    rw [targetsFrom_step hsp h, targetsFrom_closed hsp, hn,
      List.range_succ_eq_map, List.map_cons, List.map_map]
    refine congrArg₂ _ (by ring) (List.map_congr_left fun i _ => ?_)
    simp only [Function.comp]
    push_cast
    ring
  · have hneg : (b - t) / spacing < 0 :=
      div_neg_of_neg_of_pos (by linarith [lt_of_not_ge h]) hsp
    have hlt : ⌊(b - t) / spacing⌋ < 0 := Int.floor_lt.mpr (by exact_mod_cast hneg)
    rw [targetsFrom_stop (fun hc => h hc.2),
      show (⌊(b - t) / spacing⌋ + 1).toNat = 0 from by omega]
    rfl
termination_by (⌊(b - t) / spacing⌋ + 1).toNat
decreasing_by
  have hx : (0:ℝ) ≤ (b - t) / spacing := div_nonneg (by linarith) (le_of_lt hsp)
  have hfl : (0:ℤ) ≤ ⌊(b - t) / spacing⌋ := Int.floor_nonneg.mpr hx
  have hne : spacing ≠ 0 := ne_of_gt hsp
  have harg : b - (t + spacing) = b - t - spacing := by ring
  have hstep : (b - (t + spacing)) / spacing = (b - t) / spacing - 1 := by
    rw [harg, sub_div, div_self hne]
  have : ⌊(b - (t + spacing)) / spacing⌋ = ⌊(b - t) / spacing⌋ - 1 := by
    rw [hstep]
    exact_mod_cast Int.floor_sub_int ((b - t) / spacing) 1
  omega

/-! ## Theorems: resampling refinement (claim C3) -/

/-- Arc-length lookup inside a straddling segment. -/
theorem pointAtArcSegs_le {p1 p2 : Pt} {L d : ℝ} (rest : List (Pt × Pt × ℝ)) (h : d ≤ L) :
    pointAtArcSegs ((p1, p2, L) :: rest) d = interpPt p1 p2 (d / L) := by
  rw [pointAtArcSegs, if_pos h]

/-- Arc-length lookup past the current segment. -/
theorem pointAtArcSegs_gt {p1 p2 : Pt} {L d : ℝ} (rest : List (Pt × Pt × ℝ)) (h : ¬ d ≤ L) :
    pointAtArcSegs ((p1, p2, L) :: rest) d = pointAtArcSegs rest (d - L) := by
  rw [pointAtArcSegs, if_neg h]

/-- Segment-total of a cons. -/
theorem segsTotal_cons (p1 p2 : Pt) (L : ℝ) (rest : List (Pt × Pt × ℝ)) :
    segsTotal ((p1, p2, L) :: rest) = L + segsTotal rest := by
  simp [segsTotal]

/-- Segment totals of nonnegative segment lists are nonnegative. -/
theorem segsTotal_nonneg : ∀ {segs : List (Pt × Pt × ℝ)},
    (∀ x ∈ segs, 0 ≤ x.2.2) → 0 ≤ segsTotal segs
  | [], _ => le_of_eq rfl
  | (p1, p2, L) :: rest, h => by
    rw [segsTotal_cons]
    have h1 : (0:ℝ) ≤ L := h (p1, p2, L) (List.mem_cons_self _ _)
    have h2 := segsTotal_nonneg (fun x hx => h x (List.mem_cons_of_mem _ hx))
    linarith

/-- All segment lengths computed by `mkSegs` are nonnegative (they are
square roots). -/
theorem mkSegs_nonneg : ∀ (path : List Pt), ∀ x ∈ mkSegs path, 0 ≤ x.2.2
  | [], x, hx => by simp [mkSegs] at hx
  | [p], x, hx => by simp [mkSegs] at hx
  | p1 :: p2 :: rest, x, hx => by
    rw [show mkSegs (p1 :: p2 :: rest) = (p1, p2, segLen p1 p2) :: mkSegs (p2 :: rest)
      from rfl] at hx
    rcases List.mem_cons.mp hx with rfl | hx
    · exact Real.sqrt_nonneg _
    · exact mkSegs_nonneg (p2 :: rest) x hx

/-- The resampling walk emits exactly the arc-length interpolants of the
consumed targets: one output point per `spacing` of cumulative arc
length, each obtained in the segment straddling its target distance. -/
theorem resWalk_spec (spacing : ℝ) (hsp : 0 < spacing) :
    ∀ (segs : List (Pt × Pt × ℝ)), (∀ x ∈ segs, 0 ≤ x.2.2) →
      ∀ (c t : ℝ), c < t →
      resWalk spacing segs c t =
        (targetsFrom spacing (c + segsTotal segs) t).map
          (fun td => pointAtArcSegs segs (td - c)) := by
  intro segs
  induction segs with
  | nil =>
    intro _ c t hct
    rw [show segsTotal [] = 0 from rfl, add_zero,
      targetsFrom_stop (fun hc => absurd hc.2 (not_le.mpr hct))]
    rfl
  | cons seg rest ih =>
    obtain ⟨p1, p2, L⟩ := seg
    intro hL c t hct
    have hL0 : (0:ℝ) ≤ L := hL (p1, p2, L) (List.mem_cons_self _ _)
    have hrest : ∀ x ∈ rest, 0 ≤ x.2.2 := fun x hx => hL x (List.mem_cons_of_mem _ hx)
    have hTot : 0 ≤ segsTotal rest := segsTotal_nonneg hrest
    show (targetLoop spacing c L (fun td => interpPt p1 p2 ((td - c) / L)) t).1 ++
        resWalk spacing rest (c + L)
          (targetLoop spacing c L (fun td => interpPt p1 p2 ((td - c) / L)) t).2 = _
    rw [targetLoop_fst, targetLoop_snd,
      ih hrest (c + L) (nextFrom spacing (c + L) t) (nextFrom_gt spacing (c + L) t hsp),
      segsTotal_cons]
    have hb : c + L ≤ c + (L + segsTotal rest) := by linarith
    rw [@targetsFrom_split spacing (c + L) (c + (L + segsTotal rest)) t hsp hb,
      List.map_append]
    have hba : c + L + segsTotal rest = c + (L + segsTotal rest) := by ring
    rw [hba] at *
    congr 1
    · by_cases hLpos : 0 < L
      · rw [if_pos hLpos]
        refine List.map_congr_left fun td hmem => ?_
        have hm := targetsFrom_mem hsp hmem
        rw [pointAtArcSegs_le rest (by linarith [hm.2])]
      · have hLz : L = 0 := le_antisymm (not_lt.mp hLpos) hL0
        have hempty : targetsFrom spacing (c + L) t = [] := by
          rw [hLz, add_zero]
          exact targetsFrom_stop (fun hc => absurd hc.2 (not_le.mpr hct))
        rw [if_neg hLpos, hempty]
        rfl
    · refine (List.map_congr_left fun td hmem => ?_)
      have hm := targetsFrom_mem hsp hmem
      have hgt := nextFrom_gt spacing (c + L) t hsp
      have htd : ¬ td - c ≤ L := by
        push_neg
        linarith [hm.1]
      rw [pointAtArcSegs_gt rest htd]
      exact congrArg _ (by ring)

/-- C3: `resample_path_by_distance` satisfies the specification resampler
exactly — the output begins with the first input point, emits one point
per `targetSpacing` units of cumulative arc length by linear
interpolation within the straddling segment, appends the final raw point
exactly when it is farther than half the spacing from the last emitted
point, and the effective spacing is
`max(tileSize * 1.1, tileSize * spacingMultiplier)`. -/
theorem resample_matches_spec (size mult : ℝ) (path : List Pt)
    (hlen : 2 ≤ path.length) (hsize : 0 < size) :
    resamplePathByDistance size mult path =
      resampleSpec (max (size * 1.1) (size * mult)) path ∧
    (resamplePathByDistance size mult path).headI = path.headI := by
  have hsp : 0 < max (size * 1.1) (size * mult) :=
    lt_of_lt_of_le (by nlinarith) (le_max_left _ _)
  have hnot : ¬ path.length < 2 := not_lt.mpr hlen
  have hne : max (size * 1.1) (size * mult) ≠ 0 := ne_of_gt hsp
  have hcore : resWalk (max (size * 1.1) (size * mult)) (mkSegs path) 0
      (max (size * 1.1) (size * mult)) =
      (List.range (⌊segsTotal (mkSegs path) / max (size * 1.1) (size * mult)⌋).toNat).map
        (fun (i : ℕ) => pointAtArcSegs (mkSegs path)
          (((i : ℝ) + 1) * max (size * 1.1) (size * mult))) := by
    rw [resWalk_spec (max (size * 1.1) (size * mult)) hsp (mkSegs path)
      (mkSegs_nonneg path) 0 (max (size * 1.1) (size * mult)) hsp,
      zero_add, targetsFrom_closed hsp, List.map_map]
    have hstep : (segsTotal (mkSegs path) - max (size * 1.1) (size * mult)) /
        max (size * 1.1) (size * mult)
        = segsTotal (mkSegs path) / max (size * 1.1) (size * mult) - 1 := by
      rw [sub_div, div_self hne]
    have hfloor : ⌊(segsTotal (mkSegs path) - max (size * 1.1) (size * mult)) /
        max (size * 1.1) (size * mult)⌋ + 1
        = ⌊segsTotal (mkSegs path) / max (size * 1.1) (size * mult)⌋ := by
      rw [hstep]
      have hcast := Int.floor_sub_int
        (segsTotal (mkSegs path) / max (size * 1.1) (size * mult)) 1
      rw [show (((1:ℤ) : ℝ)) = (1:ℝ) from by norm_num] at hcast
      omega
    rw [hfloor]
    refine List.map_congr_left fun i _ => ?_
    simp only [Function.comp]
    exact congrArg _ (by ring)
  constructor
  · simp only [resamplePathByDistance, resampleSpec, if_neg hnot]
    rw [hcore]
  · simp only [resamplePathByDistance, if_neg hnot]
    rw [hcore]
    split
    · rfl
    · rfl

/-- Witness for `resample_matches_spec` on a two-point horizontal path. -/
theorem resample_matches_spec_witness :
    2 ≤ ([((0:ℝ), (0:ℝ)), (100, 0)] : List Pt).length ∧ (0:ℝ) < 10 ∧
    resamplePathByDistance 10 1 [((0:ℝ), (0:ℝ)), (100, 0)] =
      resampleSpec (max (10 * 1.1) (10 * 1)) [((0:ℝ), (0:ℝ)), (100, 0)] :=
  ⟨by simp, by norm_num,
   (resample_matches_spec 10 1 [((0:ℝ), (0:ℝ)), (100, 0)] (by simp) (by norm_num)).1⟩

/-! ## Theorems: concrete placement evaluations (claims C6 and C2) -/

/-- Distance between two points on the same horizontal line. -/
theorem segLen_horizontal (a b k : ℝ) : segLen (a, k) (b, k) = |b - a| := by
  unfold segLen
  rw [show ((k:ℝ) - k) = 0 from by ring]
  rw [show ((b:ℝ) - a) ^ 2 + (0:ℝ) ^ 2 = (b - a) ^ 2 from by ring]
  exact Real.sqrt_sq_eq_abs _

/-- Distance from a point to itself. -/
theorem segLen_self (p : Pt) : segLen p p = 0 := by
  unfold segLen
  simp

/-- Base case of the backward reference-point search. -/
theorem backSearch_zero (path : List Pt) (segIdx : ℕ) (fr : ℝ) (cur : Pt) (thr : ℝ) :
    backSearch path segIdx fr cur thr 0 =
      (if segLen cur (backTestPt path segIdx 0 fr cur) ≥ thr
       then some (backTestPt path segIdx 0 fr cur) else none) := by
  rw [backSearch]

/-- Out-of-iterations case of the forward reference-point search. -/
theorem fwdSearch_zero (path : List Pt) (segIdx : ℕ) (fr : ℝ) (cur : Pt) (thr : ℝ) (i : ℕ) :
    fwdSearch path segIdx fr cur thr i 0 = none := by
  rw [fwdSearch]

/-- Step case of the forward reference-point search. -/
theorem fwdSearch_step (path : List Pt) (segIdx : ℕ) (fr : ℝ) (cur : Pt) (thr : ℝ)
    (i n : ℕ) :
    fwdSearch path segIdx fr cur thr i (n + 1) =
      (if segLen cur (fwdTestPt path segIdx i fr cur) ≥ thr
       then some (fwdTestPt path segIdx i fr cur)
       else fwdSearch path segIdx fr cur thr (i + 1) n) := by
  rw [fwdSearch]

/-- Single-iteration case of the forward reference-point search. -/
theorem fwdSearch_one (path : List Pt) (segIdx : ℕ) (fr : ℝ) (cur : Pt) (thr : ℝ)
    (i : ℕ) :
    fwdSearch path segIdx fr cur thr i 1 =
      (if segLen cur (fwdTestPt path segIdx i fr cur) ≥ thr
       then some (fwdTestPt path segIdx i fr cur) else none) := by
  rw [show (1:ℕ) = 0 + 1 from rfl, fwdSearch_step, fwdSearch_zero]

/-- Angle in degrees of a direction pointing in the positive x
direction. -/
theorem degrees_atan2_zero_pos (x : ℝ) (hx : 0 < x) : degrees (atan2 0 x) = 0 := by
  unfold atan2 degrees
  rw [if_pos hx, zero_div, Real.arctan_zero, zero_mul, zero_div]

/-- On a two-point horizontal path running left to right, the smooth
angle is 0 degrees at every fraction of the single segment: every
direction the search can produce is horizontal with positive x
component. -/
theorem calcSmoothAngle_horizontal (size a b k fr : ℝ) (hsize : 0 < size)
    (h0 : 0 ≤ fr) (h1 : fr ≤ 1) (hab : a < b) :
    calcSmoothAngle size [((a:ℝ), k), (b, k)] 0 fr = 0 := by
  have hthr : 0 < size * 1.5 * 0.8 := by nlinarith
  have hget0 : ([((a:ℝ), k), (b, k)] : List Pt).getD 0 (0, 0) = (a, k) := rfl
  have hget1 : ([((a:ℝ), k), (b, k)] : List Pt).getD 1 (0, 0) = (b, k) := rfl
  have hcur : interpPt (a, k) (b, k) fr = (a + fr * (b - a), k) :=
    congrArg (Prod.mk (a + fr * (b - a))) (by ring)
  have hsl_ca : segLen (a + fr * (b - a), k) (a, k) = fr * (b - a) := by
    rw [segLen_horizontal,
      show a - (a + fr * (b - a)) = -(fr * (b - a)) from by ring, abs_neg,
      abs_of_nonneg (by nlinarith)]
  have hsl_cb : segLen (a + fr * (b - a), k) (b, k) = (1 - fr) * (b - a) := by
    rw [segLen_horizontal,
      show b - (a + fr * (b - a)) = (1 - fr) * (b - a) from by ring,
      abs_of_nonneg (by nlinarith)]
  have hbt : backTestPt [((a:ℝ), k), (b, k)] 0 0 fr (a + fr * (b - a), k) =
      (if fr > 0.5 then (a + fr * (b - a), k) else (a, k)) := by
    unfold backTestPt
    rw [if_pos rfl]
    by_cases hgt : fr > 0.5
    · rw [if_pos hgt, if_pos hgt]
    · rw [if_neg hgt, if_neg hgt, hget0]
  have hft0 : fwdTestPt [((a:ℝ), k), (b, k)] 0 0 fr (a + fr * (b - a), k) =
      (if fr < 0.5 then (a + fr * (b - a), k) else (b, k)) := by
    unfold fwdTestPt
    rw [if_pos rfl]
    by_cases hlt : fr < 0.5
    · rw [if_pos hlt, if_pos hlt]
    · rw [if_neg hlt, if_neg hlt,
        if_pos (show 0 + 1 < ([((a:ℝ), k), (b, k)] : List Pt).length from by norm_num),
        hget1]
  have hft1 : fwdTestPt [((a:ℝ), k), (b, k)] 0 (0 + 1) fr (a + fr * (b - a), k) = (b, k) := by
    unfold fwdTestPt
    rw [if_neg (by norm_num)]
    rfl
  -- the two searches, by cases on the fraction and the distance tests
  have hback : backSearch [((a:ℝ), k), (b, k)] 0 fr (a + fr * (b - a), k)
      (size * 1.5 * 0.8) 0 =
      (if fr > 0.5 then none
       else if fr * (b - a) ≥ size * 1.5 * 0.8 then some ((a:ℝ), k) else none) := by
    rw [backSearch_zero, hbt]
    by_cases hgt : fr > 0.5
    · rw [if_pos hgt, if_pos hgt, segLen_self, if_neg (not_le.mpr hthr)]
    · rw [if_neg hgt, if_neg hgt, hsl_ca]
  have hfwd : fwdSearch [((a:ℝ), k), (b, k)] 0 fr (a + fr * (b - a), k)
      (size * 1.5 * 0.8) 0 (([((a:ℝ), k), (b, k)] : List Pt).length - 0) =
      (if (1 - fr) * (b - a) ≥ size * 1.5 * 0.8 then some ((b:ℝ), k) else none) := by
    rw [show (([((a:ℝ), k), (b, k)] : List Pt).length - 0) = 1 + 1 from rfl,
      fwdSearch_step, hft0]
    by_cases hlt : fr < 0.5
    · rw [if_pos hlt, segLen_self, if_neg (not_le.mpr hthr), fwdSearch_one, hft1, hsl_cb]
    · rw [if_neg hlt, hsl_cb]
      by_cases hd : (1 - fr) * (b - a) ≥ size * 1.5 * 0.8
      · rw [if_pos hd, if_pos hd]
      · rw [if_neg hd, if_neg hd, fwdSearch_one, hft1, hsl_cb, if_neg hd]
  -- assemble
  unfold calcSmoothAngle
  simp only [hget0, hget1, hcur, hback, hfwd]
  by_cases hgt : fr > 0.5
  · rw [if_pos hgt]
    by_cases hd : (1 - fr) * (b - a) ≥ size * 1.5 * 0.8
    · rw [if_pos hd]
      have hpos : 0 < b - (a + fr * (b - a)) := by nlinarith [lt_of_lt_of_le hthr hd]
      show (if b - (a + fr * (b - a)) ≠ 0 ∨ k - k ≠ 0 then
        degrees (atan2 (k - k) (b - (a + fr * (b - a)))) else 0) = 0
      rw [show (k:ℝ) - k = 0 from by ring, if_pos (Or.inl (ne_of_gt hpos))]
      exact degrees_atan2_zero_pos _ hpos
    · rw [if_neg hd]
      have hpos : 0 < b - a := by linarith
      show (if b - a ≠ 0 ∨ k - k ≠ 0 then degrees (atan2 (k - k) (b - a)) else 0) = 0
      rw [show (k:ℝ) - k = 0 from by ring, if_pos (Or.inl (ne_of_gt hpos))]
      exact degrees_atan2_zero_pos _ hpos
  · rw [if_neg hgt]
    by_cases hb : fr * (b - a) ≥ size * 1.5 * 0.8
    · rw [if_pos hb]
      by_cases hd : (1 - fr) * (b - a) ≥ size * 1.5 * 0.8
      · rw [if_pos hd]
        have hpos : 0 < b - a := by linarith
        show (if b - a ≠ 0 ∨ k - k ≠ 0 then degrees (atan2 (k - k) (b - a)) else 0) = 0
        rw [show (k:ℝ) - k = 0 from by ring, if_pos (Or.inl (ne_of_gt hpos))]
        exact degrees_atan2_zero_pos _ hpos
      · rw [if_neg hd]
        have hpos : 0 < a + fr * (b - a) - a := by nlinarith [lt_of_lt_of_le hthr hb]
        show (if a + fr * (b - a) - a ≠ 0 ∨ k - k ≠ 0 then
          degrees (atan2 (k - k) (a + fr * (b - a) - a)) else 0) = 0
        rw [show (k:ℝ) - k = 0 from by ring, if_pos (Or.inl (ne_of_gt hpos))]
        exact degrees_atan2_zero_pos _ hpos
    · rw [if_neg hb]
      by_cases hd : (1 - fr) * (b - a) ≥ size * 1.5 * 0.8
      · rw [if_pos hd]
        have hpos : 0 < b - (a + fr * (b - a)) := by nlinarith [lt_of_lt_of_le hthr hd]
        show (if b - (a + fr * (b - a)) ≠ 0 ∨ k - k ≠ 0 then
          degrees (atan2 (k - k) (b - (a + fr * (b - a)))) else 0) = 0
        rw [show (k:ℝ) - k = 0 from by ring, if_pos (Or.inl (ne_of_gt hpos))]
        exact degrees_atan2_zero_pos _ hpos
      · rw [if_neg hd]
        have hpos : 0 < b - a := by linarith
        show (if b - a ≠ 0 ∨ k - k ≠ 0 then degrees (atan2 (k - k) (b - a)) else 0) = 0
        rw [show (k:ℝ) - k = 0 from by ring, if_pos (Or.inl (ne_of_gt hpos))]
        exact degrees_atan2_zero_pos _ hpos

/-- Single-segment form of the resampling walk. -/
theorem resWalk_single (spacing : ℝ) (p1 p2 : Pt) (L c t : ℝ) :
    resWalk spacing [(p1, p2, L)] c t =
      (if 0 < L then
        (targetsFrom spacing (c + L) t).map (fun td => interpPt p1 p2 ((td - c) / L))
       else []) := by
  have h1 : resWalk spacing [(p1, p2, L)] c t =
      (targetLoop spacing c L (fun td => interpPt p1 p2 ((td - c) / L)) t).1 ++ [] := rfl
  rw [h1, List.append_nil, targetLoop_fst]

/-- Single-segment form of the placement walk. -/
theorem placeWalk_single (size spacing : ℝ) (path : List Pt) (p1 p2 : Pt) (L : ℝ)
    (idx : ℕ) (c t : ℝ) :
    placeWalk size spacing path [(p1, p2, L)] idx c t =
      (if 0 < L then
        (targetsFrom spacing (c + L) t).map (fun td =>
          RTile.mk (p1.1 + (td - c) / L * (p2.1 - p1.1) - size / 2)
            (p1.2 + (td - c) / L * (p2.2 - p1.2) - size / 2) size size
            (calcSmoothAngle size path idx ((td - c) / L)))
       else []) := by
  have h1 : placeWalk size spacing path [(p1, p2, L)] idx c t =
      (targetLoop spacing c L (fun td =>
        RTile.mk (p1.1 + (td - c) / L * (p2.1 - p1.1) - size / 2)
          (p1.2 + (td - c) / L * (p2.2 - p1.2) - size / 2) size size
          (calcSmoothAngle size path idx ((td - c) / L))) t).1 ++ [] := rfl
  rw [h1, List.append_nil, targetLoop_fst]

/-- Full evaluation of Scenario 1: a straight drag from (0,0) to (100,0)
with tile size 10 and spacing multiplier 1.0 places ten 10×10 tiles at
arc-length targets 0, 11, …, 99 (effective spacing `max(11, 10) = 11`),
each with rotation 0. -/
theorem singleLineGesture_eval :
    singleLineGesture 10 1 [((0:ℝ), 0), (100, 0)] =
      [RTile.mk (-5) (-5) 10 10 0, RTile.mk 6 (-5) 10 10 0, RTile.mk 17 (-5) 10 10 0,
       RTile.mk 28 (-5) 10 10 0, RTile.mk 39 (-5) 10 10 0, RTile.mk 50 (-5) 10 10 0,
       RTile.mk 61 (-5) 10 10 0, RTile.mk 72 (-5) 10 10 0, RTile.mk 83 (-5) 10 10 0,
       RTile.mk 94 (-5) 10 10 0] := by
  have hsm : smoothPath [((0:ℝ), 0), (100, 0)] = [((0:ℝ), 0), (100, 0)] := by
    unfold smoothPath
    rw [if_pos (by norm_num)]
  have hmax : max ((10:ℝ) * 1.1) (10 * 1) = 11 := by
    rw [max_eq_left (by norm_num)]
    norm_num
  have hseg : mkSegs [((0:ℝ), 0), (100, 0)] = [(((0:ℝ), 0), (100, 0), 100)] := by
    rw [show mkSegs [((0:ℝ), 0), (100, 0)] =
      (((0:ℝ), 0), (100, 0), segLen (0, 0) (100, 0)) :: mkSegs [((100:ℝ), 0)] from rfl,
      segLen_horizontal]
    norm_num
    rfl
  have htargets : targetsFrom (11:ℝ) 100 0 = [0, 11, 22, 33, 44, 55, 66, 77, 88, 99] := by
    rw [targetsFrom_step (by norm_num : (0:ℝ) < 11) (by norm_num : (0:ℝ) ≤ 100)]
    norm_num
    rw [targetsFrom_step (by norm_num : (0:ℝ) < 11) (by norm_num : (11:ℝ) ≤ 100)]
    norm_num
    rw [targetsFrom_step (by norm_num : (0:ℝ) < 11) (by norm_num : (22:ℝ) ≤ 100)]
    norm_num
    rw [targetsFrom_step (by norm_num : (0:ℝ) < 11) (by norm_num : (33:ℝ) ≤ 100)]
    norm_num
    rw [targetsFrom_step (by norm_num : (0:ℝ) < 11) (by norm_num : (44:ℝ) ≤ 100)]
    norm_num
    rw [targetsFrom_step (by norm_num : (0:ℝ) < 11) (by norm_num : (55:ℝ) ≤ 100)]
    norm_num
    rw [targetsFrom_step (by norm_num : (0:ℝ) < 11) (by norm_num : (66:ℝ) ≤ 100)]
    norm_num
    rw [targetsFrom_step (by norm_num : (0:ℝ) < 11) (by norm_num : (77:ℝ) ≤ 100)]
    norm_num
    rw [targetsFrom_step (by norm_num : (0:ℝ) < 11) (by norm_num : (88:ℝ) ≤ 100)]
    norm_num
    rw [targetsFrom_step (by norm_num : (0:ℝ) < 11) (by norm_num : (99:ℝ) ≤ 100)]
    norm_num
    rw [targetsFrom_stop (by norm_num : ¬ ((0:ℝ) < 11 ∧ (110:ℝ) ≤ 100))]
  have hang : ∀ fr : ℝ, 0 ≤ fr → fr ≤ 1 →
      calcSmoothAngle 10 [((0:ℝ), 0), (100, 0)] 0 fr = 0 := fun fr hf0 hf1 =>
    calcSmoothAngle_horizontal 10 0 100 0 fr (by norm_num) hf0 hf1 (by norm_num)
  unfold singleLineGesture
  rw [if_neg (by norm_num), hsm]
  unfold createRectanglesAlongSpecificPath
  rw [if_neg (by norm_num)]
  simp only [hmax, hseg]
  rw [placeWalk_single, if_pos (by norm_num : (0:ℝ) < 100), zero_add, htargets]
  simp only [List.map_cons, List.map_nil]
  rw [hang ((0 - 0) / 100) (by norm_num) (by norm_num),
    hang ((11 - 0) / 100) (by norm_num) (by norm_num),
    hang ((22 - 0) / 100) (by norm_num) (by norm_num),
    hang ((33 - 0) / 100) (by norm_num) (by norm_num),
    hang ((44 - 0) / 100) (by norm_num) (by norm_num),
    hang ((55 - 0) / 100) (by norm_num) (by norm_num),
    hang ((66 - 0) / 100) (by norm_num) (by norm_num),
    hang ((77 - 0) / 100) (by norm_num) (by norm_num),
    hang ((88 - 0) / 100) (by norm_num) (by norm_num),
    hang ((99 - 0) / 100) (by norm_num) (by norm_num)]
  norm_num

/-- C6 (amended): the straight horizontal drag from (0,0) to (100,0) with
tileSize 10 and spacingMultiplier 1.0 produces exactly 10 tiles, centered
at x = 0, 11, 22, …, 99 (the effective spacing is
`max(10 × 1.1, 10 × 1.0) = 11` and targets start at arc length 0), y = 0,
each with rotation 0 degrees. -/
theorem scenario1_positions :
    ((singleLineGesture 10 1 [((0:ℝ), 0), (100, 0)]).map RTile.center =
      [((0:ℝ), 0), (11, 0), (22, 0), (33, 0), (44, 0), (55, 0), (66, 0), (77, 0),
       (88, 0), (99, 0)]) ∧
    (∀ t ∈ singleLineGesture 10 1 [((0:ℝ), 0), (100, 0)],
      t.rotDegrees = 0 ∧ t.width = 10 ∧ t.height = 10) ∧
    (singleLineGesture 10 1 [((0:ℝ), 0), (100, 0)]).length = 10 := by
  rw [singleLineGesture_eval]
  refine ⟨?_, ?_, rfl⟩
  · simp only [List.map_cons, List.map_nil, RTile.center]
    norm_num
  · intro t ht
    simp only [List.mem_cons, List.not_mem_nil, or_false] at ht
    rcases ht with rfl | rfl | rfl | rfl | rfl | rfl | rfl | rfl | rfl | rfl <;>
      exact ⟨rfl, rfl, rfl⟩

/-- C6 (counterexample): the tile centers of Scenario 1 are not
5, 15, …, 95 — the first tile is centered at (0,0), not (5,0). -/
theorem scenario1_claimed_centers_false :
    (singleLineGesture 10 1 [((0:ℝ), 0), (100, 0)]).map RTile.center ≠
      [((5:ℝ), 0), (15, 0), (25, 0), (35, 0), (45, 0), (55, 0), (65, 0), (75, 0),
       (85, 0), (95, 0)] := by
  rw [singleLineGesture_eval]
  intro h
  simp only [List.map_cons, List.map_nil, RTile.center, List.cons.injEq, Prod.mk.injEq] at h
  norm_num at h

/-- Resampling the short horizontal drag (0,0)–(12,0) at tile size 10 and
multiplier 1.0: effective spacing 11, one interior emission at arc length
11, and the final raw point (1 unit past it) is not appended. -/
theorem resample_eval_12 :
    resamplePathByDistance 10 1 [((0:ℝ), 0), (12, 0)] = [((0:ℝ), 0), (11, 0)] := by
  have hmax : max ((10:ℝ) * 1.1) (10 * 1) = 11 := by
    rw [max_eq_left (by norm_num)]
    norm_num
  have hseg : mkSegs [((0:ℝ), 0), (12, 0)] = [(((0:ℝ), 0), (12, 0), 12)] := by
    rw [show mkSegs [((0:ℝ), 0), (12, 0)] =
      (((0:ℝ), 0), (12, 0), segLen (0, 0) (12, 0)) :: mkSegs [((12:ℝ), 0)] from rfl,
      segLen_horizontal]
    norm_num
    rfl
  have htargets : targetsFrom (11:ℝ) 12 11 = [11] := by
    rw [targetsFrom_step (by norm_num : (0:ℝ) < 11) (by norm_num : (11:ℝ) ≤ 12)]
    norm_num
    rw [targetsFrom_stop (by norm_num : ¬ ((0:ℝ) < 11 ∧ (22:ℝ) ≤ 12))]
  unfold resamplePathByDistance
  rw [if_neg (by norm_num)]
  simp only [hmax, hseg]
  rw [resWalk_single, if_pos (by norm_num : (0:ℝ) < 12), zero_add, htargets]
  simp only [List.map_cons, List.map_nil]
  rw [show interpPt ((0:ℝ), 0) (12, 0) ((11 - 0) / 12) = ((11:ℝ), 0) from by
    unfold interpPt
    norm_num]
  rw [show ([((0:ℝ), 0), (12, 0)] : List Pt).getLastD (0, 0) = ((12:ℝ), 0) from rfl,
    show ([((0:ℝ), 0), (12, 0)] : List Pt).headI = ((0:ℝ), 0) from rfl,
    show ((((0:ℝ), 0) : Pt) :: [((11:ℝ), 0)]).getLastD (0, 0) = ((11:ℝ), 0) from rfl,
    segLen_horizontal]
  rw [if_neg (by norm_num)]

/-- Lane direction at the first resampled point. -/
theorem laneDirAt_eval0 : laneDirAt [((0:ℝ), 0), (11, 0)] 0 = ((11:ℝ), 0) := by
  unfold laneDirAt
  rw [if_pos rfl]
  norm_num

/-- Lane direction at the last resampled point. -/
theorem laneDirAt_eval1 : laneDirAt [((0:ℝ), 0), (11, 0)] 1 = ((11:ℝ), 0) := by
  unfold laneDirAt
  rw [if_neg (by norm_num),
    if_pos (show (1:ℕ) = ([((0:ℝ), 0), (11, 0)] : List Pt).length - 1 from rfl)]
  norm_num

/-- Lane offsets of the first resampled point at distance 10. -/
theorem lanePoint_eval0 :
    lanePoint [((0:ℝ), 0), (11, 0)] 10 0 = some (((0:ℝ), 10), ((0:ℝ), -10)) := by
  simp only [lanePoint, laneDirAt_eval0]
  rw [show (((11:ℝ), 0) : Pt).1 * (((11:ℝ), 0) : Pt).1 +
      (((11:ℝ), 0) : Pt).2 * (((11:ℝ), 0) : Pt).2 = (11:ℝ) ^ 2 from by norm_num,
    Real.sqrt_sq (by norm_num : (0:ℝ) ≤ 11)]
  rw [if_pos (by norm_num : (0:ℝ) < 11)]
  norm_num

/-- Lane offsets of the last resampled point at distance 10. -/
theorem lanePoint_eval1 :
    lanePoint [((0:ℝ), 0), (11, 0)] 10 1 = some (((11:ℝ), 10), ((11:ℝ), -10)) := by
  simp only [lanePoint, laneDirAt_eval1]
  rw [show (((11:ℝ), 0) : Pt).1 * (((11:ℝ), 0) : Pt).1 +
      (((11:ℝ), 0) : Pt).2 * (((11:ℝ), 0) : Pt).2 = (11:ℝ) ^ 2 from by norm_num,
    Real.sqrt_sq (by norm_num : (0:ℝ) ≤ 11)]
  rw [if_pos (by norm_num : (0:ℝ) < 11)]
  norm_num

/-- The left lane of the resampled short drag. -/
theorem leftLane_eval : leftLane [((0:ℝ), 0), (11, 0)] 10 = [((0:ℝ), 10), ((11:ℝ), 10)] := by
  unfold leftLane
  rw [show List.range ([((0:ℝ), 0), (11, 0)] : List Pt).length = [0, 1] from rfl]
  simp only [List.filterMap_cons, List.filterMap_nil, lanePoint_eval0, lanePoint_eval1]
  rfl

/-- The right lane of the resampled short drag. -/
theorem rightLane_eval : rightLane [((0:ℝ), 0), (11, 0)] 10 = [((0:ℝ), -10), ((11:ℝ), -10)] := by
  unfold rightLane
  rw [show List.range ([((0:ℝ), 0), (11, 0)] : List Pt).length = [0, 1] from rfl]
  simp only [List.filterMap_cons, List.filterMap_nil, lanePoint_eval0, lanePoint_eval1]
  rfl

/-- Tiles placed along a two-point horizontal lane of length 11 at height
`k`: two tiles, at arc targets 0 and 11, rotation 0. -/
theorem laneTiles_eval (k : ℝ) :
    createRectanglesAlongSpecificPath 10 1 [((0:ℝ), k), (11, k)] =
      [RTile.mk (-5) (k - 5) 10 10 0, RTile.mk 6 (k - 5) 10 10 0] := by
  have hmax : max ((10:ℝ) * 1.1) (10 * 1) = 11 := by
    rw [max_eq_left (by norm_num)]
    norm_num
  have hseg : mkSegs [((0:ℝ), k), (11, k)] = [(((0:ℝ), k), (11, k), 11)] := by
    rw [show mkSegs [((0:ℝ), k), (11, k)] =
      (((0:ℝ), k), (11, k), segLen (0, k) (11, k)) :: mkSegs [((11:ℝ), k)] from rfl,
      segLen_horizontal]
    norm_num
    rfl
  have htargets : targetsFrom (11:ℝ) 11 0 = [0, 11] := by
    rw [targetsFrom_step (by norm_num : (0:ℝ) < 11) (by norm_num : (0:ℝ) ≤ 11)]
    norm_num
    rw [targetsFrom_step (by norm_num : (0:ℝ) < 11) (by norm_num : (11:ℝ) ≤ 11)]
    norm_num
    rw [targetsFrom_stop (by norm_num : ¬ ((0:ℝ) < 11 ∧ (22:ℝ) ≤ 11))]
  have hang : ∀ fr : ℝ, 0 ≤ fr → fr ≤ 1 →
      calcSmoothAngle 10 [((0:ℝ), k), (11, k)] 0 fr = 0 := fun fr hf0 hf1 =>
    calcSmoothAngle_horizontal 10 0 11 k fr (by norm_num) hf0 hf1 (by norm_num)
  unfold createRectanglesAlongSpecificPath
  rw [if_neg (by norm_num)]
  simp only [hmax, hseg]
  rw [placeWalk_single, if_pos (by norm_num : (0:ℝ) < 11), zero_add, htargets]
  simp only [List.map_cons, List.map_nil]
  rw [hang ((0 - 0) / 11) (by norm_num) (by norm_num),
    hang ((11 - 0) / 11) (by norm_num) (by norm_num)]
  norm_num

/-- Full evaluation of the parallel-lane creation for the short drag:
one line index, lane offset 10, two tiles per lane, four tiles total. -/
theorem createParallelPaths_eval :
    createParallelPaths 10 1 1 1.5 1.7 1.8 1.85 1 [((0:ℝ), 0), (12, 0)] =
      [RTile.mk (-5) 5 10 10 0, RTile.mk 6 5 10 10 0,
       RTile.mk (-5) (-15) 10 10 0, RTile.mk 6 (-15) 10 10 0] := by
  unfold createParallelPaths
  rw [if_neg (by norm_num)]
  simp only [resample_eval_12]
  rw [show List.range 1 = [0] from rfl]
  simp only [List.foldl_cons, List.foldl_nil]
  rw [show laneDistance 10 1 1.5 1.7 1.8 1.85 (0 + 1) = (10:ℝ) from by
    unfold laneDistance
    rw [if_pos rfl]
    norm_num]
  rw [leftLane_eval, rightLane_eval]
  simp only [List.isEmpty_cons, Bool.false_eq_true, if_false]
  rw [laneTiles_eval 10, laneTiles_eval (-10)]
  norm_num

/-- C2 (code evaluated at the failing input): a parallel-mode gesture
along the drag (0,0)–(12,0) with tile size 10, spacing 1.0, one parallel
line at distance multiplier 1.0 creates 4 lane tiles and pushes 5
batches — one per lane tile (because `create_rectangles_along_path`
resets `batch_operation` to false before `create_parallel_paths` runs)
plus the collective batch — not exactly one batch for the gesture. -/
theorem parallel_gesture_pushes_five_batches :
    ((parallelGesture 10 1 1 1.5 1.7 1.8 1.85 1 [((0:ℝ), 0), (12, 0)]).2).length = 5 ∧
    ((parallelGesture 10 1 1 1.5 1.7 1.8 1.85 1 [((0:ℝ), 0), (12, 0)]).2).length ≠ 1 := by
  have hsm : smoothPath [((0:ℝ), 0), (12, 0)] = [((0:ℝ), 0), (12, 0)] := by
    unfold smoothPath
    rw [if_pos (by norm_num)]
  unfold parallelGesture
  rw [if_neg (by norm_num), hsm, createParallelPaths_eval]
  constructor
  · simp
  · simp

end Tessera
